import Mathlib

/-!
Verification of the RF-pico OOK transmitter/receiver core (`rpi_rf.py`).

The Python source is shallowly embedded: the transmit path is modelled as a
pure function producing the list of pulse durations (in microseconds) that
`tx_waveform` would emit, and the receive path as a state-transition function
on the `RFDevice` record driven by edge timestamps, exactly mirroring
`rx_callback` and `_rx_waveform`.  Failure (a Python exception such as an
out-of-range string index, or an early `return False` that aborts the
waveform) is modelled with `Option`.
-/

set_option autoImplicit false

namespace RFPico

/-! ## Module constants (`rpi_rf.py` top level) -/

def MAX_CHANGES : ℕ := 67

def THRESHOLD_SYNC : ℤ := 15000

def THRESHOLD_TICK : ℤ := 300

def SCALE_TIME_US : ℤ := 3

theorem thresholdTick_val : THRESHOLD_TICK = 300 := rfl

theorem thresholdSync_val : THRESHOLD_SYNC = 15000 := rfl

/-- Pulse parameters of one protocol entry, values as in the Python
`Protocol` namedtuple. -/
structure Protocol where
  pulselength : ℤ
  sync_high : ℤ
  sync_low : ℤ
  zero_high : ℤ
  zero_low : ℤ
  one_high : ℤ
  one_low : ℤ
  deriving DecidableEq, Repr

/-- The `PROTOCOLS` tuple: index 0 holds `None`, entries 1..6 are defined.
`protocolAt n` is `PROTOCOLS[n]`, with `none` both for the reserved index 0
and for indices out of range. -/
def protocolAt : ℕ → Option Protocol
  | 1 => some ⟨350, 1, 31, 1, 3, 3, 1⟩
  | 2 => some ⟨650, 1, 10, 1, 2, 2, 1⟩
  | 3 => some ⟨100, 30, 71, 4, 11, 9, 6⟩
  | 4 => some ⟨380, 1, 6, 1, 3, 3, 1⟩
  | 5 => some ⟨500, 6, 14, 1, 2, 2, 1⟩
  | 6 => some ⟨200, 1, 10, 1, 5, 1, 1⟩
  | _ => none

/-! ## Device state (`RFDevice.__init__`) -/

/-- The mutable attributes of an `RFDevice` instance that the core logic
reads or writes.  `rx_change_count` is an `ℤ` because `rx_callback`
transiently decrements it to `-1` when a sync arrives with an empty buffer.
The GPIO pin objects and debug pins are external I/O and carry no state
relevant to the claims. -/
structure RFDevice where
  tx_enabled : Bool
  tx_proto : ℕ
  tx_pulselength : ℤ
  tx_repeat : ℕ
  tx_length : ℕ
  rx_enabled : Bool
  rx_tolerance : ℤ
  rx_timings : List ℤ
  rx_last_timestamp : ℤ
  rx_change_count : ℤ
  rx_repeat_count : ℕ
  rx_code : Option ℕ
  rx_code_timestamp : Option ℤ
  rx_proto : ℕ
  deriving DecidableEq, Repr

/-- Python `RFDevice.__init__`: `none` models the `PROTOCOLS[tx_proto]` lookup
raising when the protocol id is out of range and no (truthy) pulse-length
override is supplied.  A `some 0` override is falsy in Python and also falls
back to the protocol's default pulse length. -/
def initDevice (tx_proto : ℕ) (tx_pulselength : Option ℤ) (tx_repeat tx_length : ℕ)
    (rx_tolerance : ℤ) : Option RFDevice :=
  let plOpt : Option ℤ :=
    match tx_pulselength with
    | some v => if v = 0 then (protocolAt tx_proto).map Protocol.pulselength else some v
    | none => (protocolAt tx_proto).map Protocol.pulselength
  plOpt.map fun pl =>
    { tx_enabled := false
      tx_proto := tx_proto
      tx_pulselength := pl
      tx_repeat := tx_repeat
      tx_length := tx_length
      rx_enabled := false
      rx_tolerance := rx_tolerance
      rx_timings := List.replicate (MAX_CHANGES + 1) 0
      rx_last_timestamp := 0
      rx_change_count := 0
      rx_repeat_count := 0
      rx_code := none
      rx_code_timestamp := none
      rx_proto := tx_proto }

/-! ## Binary representation (`bin(code)[2:]` and the zero padding) -/

/-- Digits of `bin(n)[2:]` computed most-significant-bit first, with explicit
fuel so that the definition is structurally recursive (the fuel `n` itself is
always enough, since the value is halved at each step). -/
def binDigitsFuel : ℕ → ℕ → List Bool
  | 0, _ => []
  | fuel + 1, n => if n = 0 then [] else binDigitsFuel fuel (n / 2) ++ [decide (n % 2 = 1)]

/-- The string `bin(n)[2:]` as a list of bits, most significant first; `bin(0)[2:] = "0"`. -/
def binDigits (n : ℕ) : List Bool :=
  if n = 0 then [false] else binDigitsFuel n n

/-- The padded string `'0' * (tx_length - len(bin(code)[2:])) + bin(code)[2:]`: in Python a
negative repeat count yields the empty string, which `ℕ` subtraction models. -/
def rawcodeOf (tx_length : ℕ) (code : ℕ) : List Bool :=
  List.replicate (tx_length - (binDigits code).length) false ++ binDigits code

/-- Value of a most-significant-bit-first bit string. -/
def bitsToNat (l : List Bool) : ℕ :=
  l.foldl (fun a b => 2 * a + (if b then 1 else 0)) 0

/-- The protocol-6 expansion in `tx_code`: `'0' → "01"`, `'1' → "10"`. -/
def nexaExpand (l : List Bool) : List Bool :=
  (l.map fun b => if b then [true, false] else [false, true]).flatten

/-! ## Transmit path

Each `tx_waveform` call busy-waits `high * tx_pulselength * SCALE_TIME_US`
microseconds high and then `low * tx_pulselength * SCALE_TIME_US` low; the
observable behaviour is that pair of durations, so the transmit functions
return the emitted duration list (or `none` where the Python code returns
`False`/raises and the transmission is aborted). -/

/-- Python `tx_waveform`: fails when TX is not enabled, otherwise emits one
high interval and one low interval. -/
def tx_waveform (st : RFDevice) (highpulses lowpulses : ℤ) : Option (List ℤ) :=
  if st.tx_enabled then
    some [highpulses * st.tx_pulselength * SCALE_TIME_US,
          lowpulses * st.tx_pulselength * SCALE_TIME_US]
  else none

/-- Python `tx_l0`: a '0' bit waveform; fails on an unknown protocol. -/
def tx_l0 (st : RFDevice) : Option (List ℤ) :=
  match protocolAt st.tx_proto with
  | some p => tx_waveform st p.zero_high p.zero_low
  | none => none

/-- Python `tx_l1`: a '1' bit waveform; fails on an unknown protocol. -/
def tx_l1 (st : RFDevice) : Option (List ℤ) :=
  match protocolAt st.tx_proto with
  | some p => tx_waveform st p.one_high p.one_low
  | none => none

/-- Python `tx_sync`: the sync waveform; fails on an unknown protocol. -/
def tx_sync (st : RFDevice) : Option (List ℤ) :=
  match protocolAt st.tx_proto with
  | some p => tx_waveform st p.sync_high p.sync_low
  | none => none

/-- The inner `for byte in range(0, self.tx_length)` loop of `tx_bin`,
iterating over the given list of indices into `rawcode`.  Reading past the
end of `rawcode` models Python's `IndexError`. -/
def txBitsAux (st : RFDevice) (rawcode : List Bool) : List ℕ → Option (List ℤ)
  | [] => some []
  | i :: is => do
    let b ← rawcode.get? i
    let w ← if b then tx_l1 st else tx_l0 st
    let rest ← txBitsAux st rawcode is
    pure (w ++ rest)

/-- One iteration of the outer repeat loop of `tx_bin`: for protocol 6 an
extra sync precedes the bits, and one closing sync always follows. -/
def txOnce (st : RFDevice) (rawcode : List Bool) : Option (List ℤ) := do
  let pre ← if st.tx_proto = 6 then tx_sync st else pure []
  let bits ← txBitsAux st rawcode (List.range st.tx_length)
  let post ← tx_sync st
  pure (pre ++ bits ++ post)

/-- The outer `for _ in range(0, self.tx_repeat)` loop of `tx_bin`. -/
def txRepeats (st : RFDevice) (rawcode : List Bool) : ℕ → Option (List ℤ)
  | 0 => some []
  | n + 1 => do
    let first ← txOnce st rawcode
    let rest ← txRepeats st rawcode n
    pure (first ++ rest)

/-- Python `tx_bin`: sends the frame `tx_repeat` times. -/
def tx_bin (st : RFDevice) (rawcode : List Bool) : Option (List ℤ) :=
  txRepeats st rawcode st.tx_repeat

/-- Python `tx_code`: builds the zero-padded binary string; for protocol 6 it
expands each bit and persistently sets `self.tx_length = 64` before calling
`tx_bin`.  Returns the (possibly mutated) device together with the emitted
trace. -/
def tx_code (st : RFDevice) (code : ℕ) : RFDevice × Option (List ℤ) :=
  let rawcode := rawcodeOf st.tx_length code
  if st.tx_proto = 6 then
    let st' := { st with tx_length := 64 }
    (st', tx_bin st' (nexaExpand rawcode))
  else
    (st, tx_bin st rawcode)

/-! ## Enable/disable operations -/

/-- Python `enable_tx`: rejected while RX is enabled; otherwise enables TX (a
no-op if already enabled) and reports success. -/
def enable_tx (st : RFDevice) : RFDevice × Bool :=
  if st.rx_enabled then (st, false)
  else if st.tx_enabled then (st, true)
  else ({ st with tx_enabled := true }, true)

/-- Python `disable_tx`: always succeeds. -/
def disable_tx (st : RFDevice) : RFDevice × Bool :=
  if st.tx_enabled then ({ st with tx_enabled := false }, true) else (st, true)

/-- Python `enable_rx`: rejected while TX is enabled; otherwise enables RX. -/
def enable_rx (st : RFDevice) : RFDevice × Bool :=
  if st.tx_enabled then (st, false)
  else if st.rx_enabled then (st, true)
  else ({ st with rx_enabled := true }, true)

/-- Python `disable_rx`: always succeeds. -/
def disable_rx (st : RFDevice) : RFDevice × Bool :=
  if st.rx_enabled then ({ st with rx_enabled := false }, true) else (st, true)

/-- The four role-management operations, for reasoning about arbitrary call
sequences. -/
inductive RoleOp where
  | etx | dtx | erx | drx
  deriving DecidableEq, Repr

def applyRoleOp (st : RFDevice) : RoleOp → RFDevice
  | RoleOp.etx => (enable_tx st).1
  | RoleOp.dtx => (disable_tx st).1
  | RoleOp.erx => (enable_rx st).1
  | RoleOp.drx => (disable_rx st).1

def runRoleOps (st : RFDevice) : List RoleOp → RFDevice
  | [] => st
  | op :: ops => runRoleOps (applyRoleOp st op) ops

/-! ## Receive path -/

/-- Python list assignment `l[i] = v` with a possibly negative index (a
negative index counts from the end).  Out-of-range assignments raise in
Python; they are modelled as no-ops here and never occur on reachable
states (claim C6). -/
def pyListSet (l : List ℤ) (i : ℤ) (v : ℤ) : List ℤ :=
  if 0 ≤ i then l.set i.toNat v else l.set (l.length - (-i).toNat) v

/-- One component check of `_rx_waveform`'s template matching:
`abs(timing - delay * mult) < delay * self.rx_tolerance / 100`, with the
real-valued right-hand side compared exactly (multiplied through by 100). -/
def componentMatches (observed delay mult tol : ℤ) : Bool :=
  decide ((100 : ℤ) * ((observed - delay * mult).natAbs : ℤ) < delay * tol)

/-- Both components of one (high, low) interval pair against a template. -/
def pairMatches (timings : List ℤ) (delay tol : ℤ) (i : ℕ) (mh ml : ℤ) : Bool :=
  componentMatches (timings.getD i 0) delay mh tol &&
    componentMatches (timings.getD (i + 1) 0) delay ml tol

/-- The indices visited by `for i in range(1, change_count, 2)`. -/
def oddIndicesBelow (cc : ℕ) : List ℕ :=
  (List.range cc).filter fun i => decide (i % 2 = 1)

/-- The decoding loop of `_rx_waveform`: `code <<= 1` on a zero match,
`code <<= 1; code |= 1` on a one match, abort (`return False`) otherwise. -/
def rxLoop (timings : List ℤ) (p : Protocol) (delay tol : ℤ) :
    List ℕ → ℕ → Option ℕ
  | [], code => some code
  | i :: is, code =>
    if pairMatches timings delay tol i p.zero_high p.zero_low then
      rxLoop timings p delay tol is (2 * code)
    else if pairMatches timings delay tol i p.one_high p.one_low then
      rxLoop timings p delay tol is (2 * code + 1)
    else none

/-- Python `_rx_waveform`: derives `delay = int(self._rx_timings[0] / sync_low)`
(truncating division), walks the pairs, and on success writes the mailbox
provided `self._rx_change_count > 6` and the code is nonzero.  Returns the
updated device and the Python boolean result. -/
def rxWaveform (p : Protocol) (st : RFDevice) (change_count : ℕ) (timestamp : ℤ) :
    RFDevice × Bool :=
  let delay : ℤ := Int.tdiv (st.rx_timings.getD 0 0) p.sync_low
  match rxLoop st.rx_timings p delay st.rx_tolerance (oddIndicesBelow change_count) 0 with
  | none => (st, false)
  | some code =>
    if st.rx_change_count > 6 ∧ code ≠ 0 then
      ({ st with rx_code := some code, rx_code_timestamp := some timestamp }, true)
    else (st, false)

/-- Python `rx_callback`: classifies the interval since the previous edge and
updates the device state.  `none` models the `PROTOCOLS[self.rx_proto]`
lookup raising inside `_rx_waveform` for an out-of-range protocol id.
Note that `self._rx_last_timestamp = timestamp` runs unconditionally (it sits
outside the noise check), and that after the sync branch the control flow
falls through to the buffer store. -/
def rx_callback (st : RFDevice) (timestamp : ℤ) : Option RFDevice :=
  let duration := timestamp - st.rx_last_timestamp
  let body : Option RFDevice :=
    if duration > THRESHOLD_TICK then
      let afterSync : Option RFDevice :=
        if duration > THRESHOLD_SYNC then
          let st1 := { st with rx_repeat_count := st.rx_repeat_count + 1,
                               rx_change_count := st.rx_change_count - 1 }
          let st2 : Option RFDevice :=
            if st1.rx_change_count > 1 then
              match protocolAt st1.rx_proto with
              | some p =>
                  some (rxWaveform p st1 st1.rx_change_count.toNat timestamp).1
              | none => none
            else some st1
          st2.map fun s => { s with rx_change_count := 0 }
        else some st
      afterSync.map fun s =>
        let s2 :=
          if s.rx_change_count ≥ (MAX_CHANGES : ℤ) then
            { s with rx_change_count := 0, rx_repeat_count := 0 }
          else s
        { s2 with rx_timings := pyListSet s2.rx_timings s2.rx_change_count duration,
                  rx_change_count := s2.rx_change_count + 1 }
    else some st
  body.map fun s => { s with rx_last_timestamp := timestamp }

/-- Feeding a sequence of edge timestamps to `rx_callback`. -/
def runCallbacks (st : RFDevice) : List ℤ → Option RFDevice
  | [] => some st
  | t :: ts => (rx_callback st t).bind fun st' => runCallbacks st' ts

/-! ## Simulation helpers (edge times of a transmitted waveform) -/

/-- Edge timestamps generated by a list of interval durations: if the
previous edge happened at `t`, an interval `d` ends with an edge at `t + d`.
The transmission's first edge corresponds to the gap `t0` between the idle
start and the first pulse. -/
def edgesFrom (t : ℤ) : List ℤ → List ℤ
  | [] => []
  | d :: ds => (t + d) :: edgesFrom (t + d) ds

/-- The list `l ++ l ++ ... ++ l`, `n` copies. -/
def repeatList {α : Type} (l : List α) : ℕ → List α
  | 0 => []
  | n + 1 => l ++ repeatList l n

/-- Overwrite consecutive slots of `l` starting at index `i`. -/
def writeSeq (l : List ℤ) (i : ℕ) : List ℤ → List ℤ
  | [] => l
  | d :: ds => writeSeq (l.set i d) (i + 1) ds

/-- Durations emitted by `tx_l0`/`tx_l1` for one bit at pulse length `pl`. -/
def bitWave (P : Protocol) (pl : ℤ) (b : Bool) : List ℤ :=
  if b then [P.one_high * pl * SCALE_TIME_US, P.one_low * pl * SCALE_TIME_US]
  else [P.zero_high * pl * SCALE_TIME_US, P.zero_low * pl * SCALE_TIME_US]

/-- Durations emitted by `tx_sync` at pulse length `pl`. -/
def syncWave (P : Protocol) (pl : ℤ) : List ℤ :=
  [P.sync_high * pl * SCALE_TIME_US, P.sync_low * pl * SCALE_TIME_US]

/-! ## Lemmas: binary representation -/

/-- Evaluation of `bitsToNat` run from an arbitrary accumulator (for loop reasoning). -/
def bitsToNatFrom (a : ℕ) (l : List Bool) : ℕ :=
  l.foldl (fun x b => 2 * x + (if b then 1 else 0)) a

theorem bitsToNat_eq_from (l : List Bool) : bitsToNat l = bitsToNatFrom 0 l := rfl

theorem bitsToNatFrom_cons (a : ℕ) (b : Bool) (l : List Bool) :
    bitsToNatFrom a (b :: l) = bitsToNatFrom (2 * a + (if b then 1 else 0)) l := rfl

theorem bitsToNatFrom_append (a : ℕ) (l₁ l₂ : List Bool) :
    bitsToNatFrom a (l₁ ++ l₂) = bitsToNatFrom (bitsToNatFrom a l₁) l₂ := by
  simp [bitsToNatFrom, List.foldl_append]

theorem bitsToNatFrom_spec (a : ℕ) (l : List Bool) :
    bitsToNatFrom a l = a * 2 ^ l.length + bitsToNat l := by
  induction l generalizing a with
  | nil => simp [bitsToNatFrom, bitsToNat]
  | cons b t ih =>
    rw [bitsToNatFrom_cons, ih, bitsToNat_eq_from (b :: t), bitsToNatFrom_cons, ih]
    simp [List.length_cons, pow_succ]
    cases b <;> simp <;> ring

theorem bitsToNat_lt (l : List Bool) : bitsToNat l < 2 ^ l.length := by
  induction l with
  | nil => simp [bitsToNat]
  | cons b t ih =>
    rw [bitsToNat_eq_from, bitsToNatFrom_cons, bitsToNatFrom_spec]
    have : (if b then 1 else 0) ≤ 1 := by cases b <;> simp
    have h2 : (2 : ℕ) ^ (b :: t).length = 2 ^ t.length + 2 ^ t.length := by
      simp [List.length_cons, pow_succ]; ring
    rw [h2]
    have : (2 * 0 + if b then 1 else 0) * 2 ^ t.length ≤ 2 ^ t.length := by
      cases b <;> simp
    omega

theorem binDigitsFuel_sound : ∀ fuel n, n ≤ fuel → bitsToNat (binDigitsFuel fuel n) = n := by
  intro fuel
  induction fuel with
  | zero => intro n hn; interval_cases n; simp [binDigitsFuel, bitsToNat]
  | succ f ih =>
    intro n hn
    by_cases h0 : n = 0
    · simp [binDigitsFuel, h0, bitsToNat]
    · have hdiv : n / 2 ≤ f := by
        have : n / 2 < n := Nat.div_lt_self (Nat.pos_of_ne_zero h0) one_lt_two
        omega
      rw [binDigitsFuel, if_neg h0, bitsToNat_eq_from, bitsToNatFrom_append,
        ← bitsToNat_eq_from, ih _ hdiv, bitsToNatFrom_cons]
      have hmod := Nat.div_add_mod n 2
      rcases Nat.mod_two_eq_zero_or_one n with h | h <;>
        simp [h, bitsToNatFrom] <;> omega

theorem binDigitsFuel_length : ∀ fuel n L, n ≤ fuel → n < 2 ^ L →
    (binDigitsFuel fuel n).length ≤ L := by
  intro fuel
  induction fuel with
  | zero => intro n L hn _; interval_cases n; simp [binDigitsFuel]
  | succ f ih =>
    intro n L hn hL
    by_cases h0 : n = 0
    · simp [binDigitsFuel, h0]
    · cases L with
      | zero => exfalso; have : n < 1 := hL; omega
      | succ L' =>
        have hdiv : n / 2 ≤ f := by
          have : n / 2 < n := Nat.div_lt_self (Nat.pos_of_ne_zero h0) one_lt_two
          omega
        have hlt : n / 2 < 2 ^ L' := by
          rw [Nat.div_lt_iff_lt_mul (by norm_num)]
          calc n < 2 ^ (L' + 1) := hL
            _ = 2 ^ L' * 2 := by rw [pow_succ]
        rw [binDigitsFuel, if_neg h0]
        have := ih (n / 2) L' hdiv hlt
        simp only [List.length_append, List.length_cons, List.length_nil]
        omega

theorem bitsToNat_binDigits (n : ℕ) : bitsToNat (binDigits n) = n := by
  by_cases h : n = 0
  · simp [binDigits, h, bitsToNat]
  · rw [binDigits, if_neg h]; exact binDigitsFuel_sound n n le_rfl

theorem binDigits_length_le (n L : ℕ) (hL : 1 ≤ L) (h : n < 2 ^ L) :
    (binDigits n).length ≤ L := by
  by_cases h0 : n = 0
  · simp [binDigits, h0]; omega
  · rw [binDigits, if_neg h0]; exact binDigitsFuel_length n n L le_rfl h

theorem bitsToNat_replicate_false (k : ℕ) (l : List Bool) :
    bitsToNat (List.replicate k false ++ l) = bitsToNat l := by
  induction k with
  | zero => simp
  | succ m ih =>
    rw [List.replicate_succ, List.cons_append, bitsToNat_eq_from, bitsToNatFrom_cons]
    simpa [bitsToNat_eq_from] using ih

theorem rawcodeOf_length (L c : ℕ) (h : (binDigits c).length ≤ L) :
    (rawcodeOf L c).length = L := by
  simp [rawcodeOf]; omega

theorem bitsToNat_rawcodeOf (L c : ℕ) : bitsToNat (rawcodeOf L c) = c := by
  rw [rawcodeOf, bitsToNat_replicate_false, bitsToNat_binDigits]

theorem bitsToNat_take (l : List Bool) (k : ℕ) (hk : k ≤ l.length) :
    bitsToNat (l.take k) = bitsToNat l / 2 ^ (l.length - k) := by
  have hsplit : l = l.take k ++ l.drop k := (List.take_append_drop k l).symm
  have hlen : (l.drop k).length = l.length - k := List.length_drop k l
  have h1 : bitsToNat l = bitsToNat (l.take k) * 2 ^ (l.length - k) + bitsToNat (l.drop k) := by
    conv_lhs => rw [hsplit]
    rw [bitsToNat_eq_from, bitsToNatFrom_append, ← bitsToNat_eq_from, bitsToNatFrom_spec, hlen]
  have h2 : bitsToNat (l.drop k) < 2 ^ (l.length - k) := by
    have := bitsToNat_lt (l.drop k); rwa [hlen] at this
  rw [h1]
  rw [Nat.mul_comm, Nat.mul_add_div (Nat.pos_pow_of_pos _ (by norm_num)),
    Nat.div_eq_of_lt h2, Nat.add_zero]

/-! ## Lemmas: transmit trace -/

theorem tx_l0_eq (st : RFDevice) (P : Protocol) (hen : st.tx_enabled = true)
    (hP : protocolAt st.tx_proto = some P) :
    tx_l0 st = some (bitWave P st.tx_pulselength false) := by
  simp [tx_l0, hP, tx_waveform, hen, bitWave]

theorem tx_l1_eq (st : RFDevice) (P : Protocol) (hen : st.tx_enabled = true)
    (hP : protocolAt st.tx_proto = some P) :
    tx_l1 st = some (bitWave P st.tx_pulselength true) := by
  simp [tx_l1, hP, tx_waveform, hen, bitWave]

theorem tx_sync_eq (st : RFDevice) (P : Protocol) (hen : st.tx_enabled = true)
    (hP : protocolAt st.tx_proto = some P) :
    tx_sync st = some (syncWave P st.tx_pulselength) := by
  simp [tx_sync, hP, tx_waveform, hen, syncWave]

theorem txBitsAux_eq (st : RFDevice) (P : Protocol) (hen : st.tx_enabled = true)
    (hP : protocolAt st.tx_proto = some P) (raw : List Bool) :
    ∀ is : List ℕ, (∀ i ∈ is, i < raw.length) →
      txBitsAux st raw is =
        some ((is.map fun i => bitWave P st.tx_pulselength (raw.getD i false)).flatten) := by
  intro is
  induction is with
  | nil => intro _; simp [txBitsAux]
  | cons i rest ih =>
    intro hlt
    have hi : i < raw.length := hlt i (List.mem_cons_self i rest)
    have hget : raw.get? i = some (raw.getD i false) := by
      rw [List.getD_eq_getElem?_getD, List.getElem?_eq_getElem hi]
      exact List.get?_eq_getElem? raw i ▸ List.getElem?_eq_getElem hi
    rw [txBitsAux, hget]
    have hrest := ih fun j hj => hlt j (List.mem_cons_of_mem i hj)
    cases hb : raw.getD i false with
    | false =>
      simp [hb, tx_l0_eq st P hen hP, hrest]
      rw [← List.getD_eq_getElem?_getD, hb]
    | true =>
      simp [hb, tx_l1_eq st P hen hP, hrest]
      rw [← List.getD_eq_getElem?_getD, hb]

theorem range_map_getD_take (raw : List Bool) :
    ∀ n, n ≤ raw.length → (List.range n).map (fun i => raw.getD i false) = raw.take n := by
  intro n
  induction n with
  | zero => intro _; simp
  | succ m ih =>
    intro hm
    rw [List.range_succ, List.map_append, ih (by omega), List.take_succ]
    simp [List.getD_eq_getElem?_getD, List.getElem?_eq_getElem (by omega : m < raw.length)]

/-- The bit-waveform trace of one frame body, over the first `tx_length`
characters of `rawcode`. -/
theorem txBits_range_eq (st : RFDevice) (P : Protocol) (hen : st.tx_enabled = true)
    (hP : protocolAt st.tx_proto = some P) (raw : List Bool)
    (hlen : st.tx_length ≤ raw.length) :
    txBitsAux st raw (List.range st.tx_length) =
      some (((raw.take st.tx_length).map (bitWave P st.tx_pulselength)).flatten) := by
  rw [txBitsAux_eq st P hen hP raw (List.range st.tx_length)
    (fun i hi => lt_of_lt_of_le (List.mem_range.mp hi) hlen)]
  congr 1
  rw [← range_map_getD_take raw st.tx_length hlen, List.map_map]
  rfl

theorem txOnce_eq (st : RFDevice) (P : Protocol) (hen : st.tx_enabled = true)
    (hP : protocolAt st.tx_proto = some P) (h6 : st.tx_proto ≠ 6) (raw : List Bool)
    (hlen : st.tx_length ≤ raw.length) :
    txOnce st raw =
      some (((raw.take st.tx_length).map (bitWave P st.tx_pulselength)).flatten ++
        syncWave P st.tx_pulselength) := by
  rw [txOnce]
  simp [h6, txBits_range_eq st P hen hP raw hlen, tx_sync_eq st P hen hP]

theorem txOnce_eq_p6 (st : RFDevice) (P : Protocol) (hen : st.tx_enabled = true)
    (hP : protocolAt st.tx_proto = some P) (h6 : st.tx_proto = 6) (raw : List Bool)
    (hlen : st.tx_length ≤ raw.length) :
    txOnce st raw =
      some (syncWave P st.tx_pulselength ++
        ((raw.take st.tx_length).map (bitWave P st.tx_pulselength)).flatten ++
        syncWave P st.tx_pulselength) := by
  rw [txOnce]
  simp [h6, txBits_range_eq st P hen hP raw hlen, tx_sync_eq st P hen hP]

theorem txRepeats_eq (st : RFDevice) (raw : List Bool) (f : List ℤ)
    (hf : txOnce st raw = some f) :
    ∀ n, txRepeats st raw n = some (repeatList f n) := by
  intro n
  induction n with
  | zero => simp [txRepeats, repeatList]
  | succ m ih => rw [txRepeats, hf]; simp [ih, repeatList]

/-! ## Lemmas: list helpers -/

theorem pyListSet_ofNat (l : List ℤ) (m : ℕ) (v : ℤ) :
    pyListSet l (m : ℤ) v = l.set m v := by
  simp [pyListSet]

theorem length_pyListSet (l : List ℤ) (i v : ℤ) :
    (pyListSet l i v).length = l.length := by
  unfold pyListSet; split <;> simp

theorem length_writeSeq (ds : List ℤ) : ∀ (l : List ℤ) (i : ℕ),
    (writeSeq l i ds).length = l.length := by
  induction ds with
  | nil => intro l i; rfl
  | cons d rest ih => intro l i; rw [writeSeq, ih]; simp

theorem writeSeq_getD_lt (ds : List ℤ) : ∀ (l : List ℤ) (i j : ℕ), j < i →
    (writeSeq l i ds).getD j 0 = l.getD j 0 := by
  induction ds with
  | nil => intro l i j _; rfl
  | cons d rest ih =>
    intro l i j hj
    rw [writeSeq, ih _ _ _ (by omega)]
    simp [List.getD_eq_getElem?_getD, List.getElem?_set_ne (by omega : i ≠ j)]

theorem writeSeq_getD (ds : List ℤ) : ∀ (l : List ℤ) (i j : ℕ), j < ds.length →
    i + ds.length ≤ l.length →
    (writeSeq l i ds).getD (i + j) 0 = ds.getD j 0 := by
  induction ds with
  | nil => intro l i j hj _; simp at hj
  | cons d rest ih =>
    intro l i j hj hlen
    cases j with
    | zero =>
      rw [writeSeq, Nat.add_zero, writeSeq_getD_lt rest _ _ _ (by omega)]
      have hi : i < l.length := by simp at hlen; omega
      simp [List.getD_eq_getElem?_getD, List.getElem?_set_eq, hi]
    | succ j' =>
      rw [writeSeq]
      have : i + (j' + 1) = (i + 1) + j' := by omega
      rw [this, ih _ _ _ (by simpa using Nat.lt_of_succ_lt_succ (by simpa using hj))
        (by simp at hlen ⊢; omega)]
      simp

theorem runCallbacks_append (xs ys : List ℤ) : ∀ st : RFDevice,
    runCallbacks st (xs ++ ys) = (runCallbacks st xs).bind fun s => runCallbacks s ys := by
  induction xs with
  | nil => intro st; simp [runCallbacks]
  | cons t rest ih =>
    intro st
    rw [List.cons_append, runCallbacks, runCallbacks, Option.bind_assoc]
    exact congrArg _ (funext fun s => ih s)

theorem edgesFrom_append (ds es : List ℤ) : ∀ t : ℤ,
    edgesFrom t (ds ++ es) = edgesFrom t ds ++ edgesFrom (t + ds.sum) es := by
  induction ds with
  | nil => intro t; simp [edgesFrom]
  | cons d rest ih =>
    intro t
    rw [List.cons_append, edgesFrom, edgesFrom, ih (t + d)]
    simp [add_assoc]

theorem repeatList_succ {α : Type} (l : List α) (n : ℕ) :
    repeatList l (n + 1) = l ++ repeatList l n := rfl

theorem sum_repeatList (l : List ℤ) : ∀ k : ℕ, (repeatList l k).sum = (k : ℤ) * l.sum := by
  intro k
  induction k with
  | zero => simp [repeatList]
  | succ j ih => rw [repeatList_succ, List.sum_append, ih]; push_cast; ring

/-! ## Lemmas: single edge-handler steps -/

/-- Decoding via `_rx_waveform` never touches anything but the mailbox. -/
theorem rxWaveform_fields (p : Protocol) (st : RFDevice) (cc : ℕ) (ts : ℤ) :
    (rxWaveform p st cc ts).1.rx_timings = st.rx_timings ∧
    (rxWaveform p st cc ts).1.rx_change_count = st.rx_change_count ∧
    (rxWaveform p st cc ts).1.rx_repeat_count = st.rx_repeat_count ∧
    (rxWaveform p st cc ts).1.rx_last_timestamp = st.rx_last_timestamp ∧
    (rxWaveform p st cc ts).1.rx_proto = st.rx_proto ∧
    (rxWaveform p st cc ts).1.rx_tolerance = st.rx_tolerance ∧
    (rxWaveform p st cc ts).1.rx_enabled = st.rx_enabled ∧
    (rxWaveform p st cc ts).1.tx_enabled = st.tx_enabled := by
  rcases hres : rxLoop st.rx_timings p ((st.rx_timings.getD 0 0).tdiv p.sync_low)
      st.rx_tolerance (oddIndicesBelow cc) 0 with _ | code
  all_goals rw [List.getD_eq_getElem?_getD] at hres
  · simp [rxWaveform, hres]
  · by_cases hc : st.rx_change_count > 6 ∧ code ≠ 0
    · simp [rxWaveform, hres, hc]
    · simp [rxWaveform, hres, if_neg hc]

/-- A noise edge (`duration ≤ THRESHOLD_TICK`): only the timestamp moves. -/
theorem rx_noise (st : RFDevice) (t : ℤ)
    (h : t - st.rx_last_timestamp ≤ THRESHOLD_TICK) :
    rx_callback st t = some { st with rx_last_timestamp := t } := by
  simp only [rx_callback]
  rw [if_neg (by omega : ¬ t - st.rx_last_timestamp > THRESHOLD_TICK)]
  rfl

/-- A data edge below the overflow guard: the duration is stored at index
`change_count`, which is then incremented. -/
theorem rx_data (st : RFDevice) (t : ℤ) (m : ℕ)
    (hmc : st.rx_change_count = (m : ℤ)) (hm : m < MAX_CHANGES)
    (h1 : THRESHOLD_TICK < t - st.rx_last_timestamp)
    (h2 : t - st.rx_last_timestamp ≤ THRESHOLD_SYNC) :
    rx_callback st t =
      some { st with rx_timings := st.rx_timings.set m (t - st.rx_last_timestamp),
                     rx_change_count := (m : ℤ) + 1,
                     rx_last_timestamp := t } := by
  simp only [rx_callback]
  rw [if_pos (by omega : t - st.rx_last_timestamp > THRESHOLD_TICK),
    if_neg (by omega : ¬ t - st.rx_last_timestamp > THRESHOLD_SYNC)]
  simp only [Option.map_some']
  rw [if_neg (by rw [hmc]; simp [MAX_CHANGES] at hm ⊢; omega)]
  rw [hmc, pyListSet_ofNat]

/-- A sync edge arriving when at most two intervals are pending: no decode
is attempted; the counters are reset and the sync interval is stored at
slot 0. -/
theorem rx_sync_nodecode (st : RFDevice) (t : ℤ)
    (h1 : THRESHOLD_SYNC < t - st.rx_last_timestamp)
    (h2 : ¬ st.rx_change_count - 1 > 1) :
    rx_callback st t =
      some { st with rx_repeat_count := st.rx_repeat_count + 1,
                     rx_change_count := 1,
                     rx_timings := st.rx_timings.set 0 (t - st.rx_last_timestamp),
                     rx_last_timestamp := t } := by
  simp only [rx_callback]
  rw [if_pos (by have e1 := thresholdTick_val; have e2 := thresholdSync_val; omega :
      t - st.rx_last_timestamp > THRESHOLD_TICK),
    if_pos (by omega : t - st.rx_last_timestamp > THRESHOLD_SYNC)]
  rw [if_neg h2]
  simp only [Option.map_some']
  rw [if_neg (by simp [MAX_CHANGES])]
  have : pyListSet st.rx_timings (0 : ℤ) (t - st.rx_last_timestamp) =
      st.rx_timings.set 0 (t - st.rx_last_timestamp) := pyListSet_ofNat st.rx_timings 0 _
  simp only [this]
  norm_num

/-- A sync edge with a pending frame: the decoder runs on the decremented
count, then the counters are reset and the sync interval is stored at
slot 0. -/
theorem rx_sync_decode (st : RFDevice) (t : ℤ) (P : Protocol) (n : ℕ)
    (hP : protocolAt st.rx_proto = some P)
    (h1 : THRESHOLD_SYNC < t - st.rx_last_timestamp)
    (hn : st.rx_change_count = (n : ℤ)) (h2 : 3 ≤ n) :
    rx_callback st t =
      some { (rxWaveform P
                { st with rx_repeat_count := st.rx_repeat_count + 1,
                          rx_change_count := (n : ℤ) - 1 } (n - 1) t).1 with
             rx_change_count := 1,
             rx_timings := st.rx_timings.set 0 (t - st.rx_last_timestamp),
             rx_last_timestamp := t } := by
  simp only [rx_callback]
  rw [if_pos (by have e1 := thresholdTick_val; have e2 := thresholdSync_val; omega :
      t - st.rx_last_timestamp > THRESHOLD_TICK),
    if_pos (by omega : t - st.rx_last_timestamp > THRESHOLD_SYNC)]
  simp only [hn]
  rw [if_pos (by omega : (n : ℤ) - 1 > 1), hP]
  simp only [Option.map_some']
  have htn : ((n : ℤ) - 1).toNat = n - 1 := by omega
  rw [htn]
  set r := (rxWaveform P
      { st with rx_repeat_count := st.rx_repeat_count + 1,
                rx_change_count := (n : ℤ) - 1 } (n - 1) t).1 with hr
  have hflds := rxWaveform_fields P
      { st with rx_repeat_count := st.rx_repeat_count + 1,
                rx_change_count := (n : ℤ) - 1 } (n - 1) t
  rw [if_neg (by simp [MAX_CHANGES])]
  have : pyListSet r.rx_timings (0 : ℤ) (t - st.rx_last_timestamp) =
      r.rx_timings.set 0 (t - st.rx_last_timestamp) := pyListSet_ofNat r.rx_timings 0 _
  simp only [this, ← hr]
  rw [hflds.1]
  simp

/-- Consecutive data edges accumulate into the buffer in order. -/
theorem rx_dataRun (ds : List ℤ) : ∀ (st : RFDevice) (m : ℕ),
    st.rx_change_count = (m : ℤ) → m + ds.length ≤ MAX_CHANGES →
    (∀ d ∈ ds, THRESHOLD_TICK < d ∧ d ≤ THRESHOLD_SYNC) →
    runCallbacks st (edgesFrom st.rx_last_timestamp ds) =
      some { st with rx_timings := writeSeq st.rx_timings m ds,
                     rx_change_count := (m : ℤ) + ds.length,
                     rx_last_timestamp := st.rx_last_timestamp + ds.sum } := by
  induction ds with
  | nil =>
    intro st m hm _ _
    simp only [edgesFrom, runCallbacks, writeSeq, List.length_nil, List.sum_nil]
    rw [← hm]
    norm_num
  | cons d rest ih =>
    intro st m hm hlen hdata
    have hd := hdata d (List.mem_cons_self d rest)
    have hstep := rx_data st (st.rx_last_timestamp + d) m hm
      (by simp at hlen; omega)
      (by rw [add_sub_cancel_left]; exact hd.1)
      (by rw [add_sub_cancel_left]; exact hd.2)
    rw [add_sub_cancel_left] at hstep
    rw [edgesFrom, runCallbacks, hstep, Option.some_bind]
    set st1 : RFDevice := { st with rx_timings := st.rx_timings.set m d,
                                    rx_change_count := (m : ℤ) + 1,
                                    rx_last_timestamp := st.rx_last_timestamp + d } with hst1
    have h1 : st1.rx_change_count = ((m + 1 : ℕ) : ℤ) := by simp [hst1]
    have h2 : (m + 1) + rest.length ≤ MAX_CHANGES := by simp at hlen; omega
    have h3 : ∀ d' ∈ rest, THRESHOLD_TICK < d' ∧ d' ≤ THRESHOLD_SYNC :=
      fun d' hd' => hdata d' (List.mem_cons_of_mem d hd')
    have := ih st1 (m + 1) h1 h2 h3
    rw [show st1.rx_last_timestamp = st.rx_last_timestamp + d from rfl] at this
    rw [this]
    simp only [hst1, writeSeq]
    congr 1
    simp [List.sum_cons]
    constructor
    · push_cast; ring
    · ring

/-! ## Decode machinery: exact-template frames -/

/-- Python `range(1, cc, 2)` expressed head-first: `[i, i+2, ..., i+2(n-1)]`. -/
def strideIdx (i : ℕ) : ℕ → List ℕ
  | 0 => []
  | n + 1 => i :: strideIdx (i + 2) n

theorem strideIdx_snoc (n : ℕ) : ∀ i, strideIdx i (n + 1) = strideIdx i n ++ [i + 2 * n] := by
  induction n with
  | zero => intro i; simp [strideIdx]
  | succ m ih =>
    intro i
    rw [strideIdx, ih (i + 2), strideIdx]
    simp [List.cons_append]
    omega

theorem oddIndicesBelow_stride (L : ℕ) : oddIndicesBelow (2 * L + 1) = strideIdx 1 L := by
  induction L with
  | zero => rfl
  | succ M ih =>
    have h1 : 2 * (M + 1) + 1 = (2 * M + 1) + 1 + 1 := by omega
    rw [h1, oddIndicesBelow, List.range_succ, List.range_succ, List.filter_append,
      List.filter_append, ← oddIndicesBelow, ih, strideIdx_snoc]
    have e1 : (2 * M + 1) % 2 = 1 := by omega
    have e2 : (2 * M + 1 + 1) % 2 = 0 := by omega
    simp [e1, e2]
    omega

/-- Timing side conditions under which a protocol's frames survive the
receive classifier and decoder: all data half-pulses land strictly between
the two thresholds, the sync low pulse exceeds the sync threshold, the
per-frame `delay` recovers the unit exactly, an exact template match is
accepted, and a one-pair never passes the zero-template test. -/
structure GoodTiming (P : Protocol) (u tol : ℤ) : Prop where
  htol : 0 < u * tol
  hdelay : Int.tdiv (P.sync_low * u) P.sync_low = u
  zero_high_data : THRESHOLD_TICK < P.zero_high * u ∧ P.zero_high * u ≤ THRESHOLD_SYNC
  zero_low_data : THRESHOLD_TICK < P.zero_low * u ∧ P.zero_low * u ≤ THRESHOLD_SYNC
  one_high_data : THRESHOLD_TICK < P.one_high * u ∧ P.one_high * u ≤ THRESHOLD_SYNC
  one_low_data : THRESHOLD_TICK < P.one_low * u ∧ P.one_low * u ≤ THRESHOLD_SYNC
  sync_high_data : THRESHOLD_TICK < P.sync_high * u ∧ P.sync_high * u ≤ THRESHOLD_SYNC
  sync_low_gap : THRESHOLD_SYNC < P.sync_low * u
  sep : (componentMatches (P.one_high * u) u P.zero_high tol &&
         componentMatches (P.one_low * u) u P.zero_low tol) = false

/-- High half-pulse duration of one transmitted bit, at timing unit `u`. -/
def bitHigh (P : Protocol) (u : ℤ) (b : Bool) : ℤ :=
  if b then P.one_high * u else P.zero_high * u

/-- Low half-pulse duration of one transmitted bit, at timing unit `u`. -/
def bitLow (P : Protocol) (u : ℤ) (b : Bool) : ℤ :=
  if b then P.one_low * u else P.zero_low * u

/-- The data half-pulses of a frame body. -/
def frameBitsDur (P : Protocol) (u : ℤ) (bs : List Bool) : List ℤ :=
  (bs.map fun b => [bitHigh P u b, bitLow P u b]).flatten

/-- The intervals a receiver observes strictly between two sync gaps:
the bit pulses followed by the sync high pulse. -/
def frameData (P : Protocol) (u : ℤ) (bs : List Bool) : List ℤ :=
  frameBitsDur P u bs ++ [P.sync_high * u]

/-- One full transmitted frame: data plus the long sync low gap. -/
def frameFull (P : Protocol) (u : ℤ) (bs : List Bool) : List ℤ :=
  frameData P u bs ++ [P.sync_low * u]

theorem frameBitsDur_cons (P : Protocol) (u : ℤ) (b : Bool) (bs : List Bool) :
    frameBitsDur P u (b :: bs) = bitHigh P u b :: bitLow P u b :: frameBitsDur P u bs := by
  simp [frameBitsDur]

theorem length_frameBitsDur (P : Protocol) (u : ℤ) (bs : List Bool) :
    (frameBitsDur P u bs).length = 2 * bs.length := by
  induction bs with
  | nil => rfl
  | cons b t ih => rw [frameBitsDur_cons]; simp [ih]; omega

theorem componentMatches_exact (u tol m : ℤ) (h : 0 < u * tol) :
    componentMatches (m * u) u m tol = true := by
  simp [componentMatches, mul_comm]
  omega

theorem mem_frameData_bounds {P : Protocol} {u tol : ℤ} (G : GoodTiming P u tol)
    (bs : List Bool) :
    ∀ d ∈ frameData P u bs, THRESHOLD_TICK < d ∧ d ≤ THRESHOLD_SYNC := by
  intro d hd
  rw [frameData] at hd
  rcases List.mem_append.mp hd with h | h
  · rw [frameBitsDur] at h
    rcases List.mem_flatten.mp h with ⟨l, hl, hdl⟩
    rcases List.mem_map.mp hl with ⟨b, _, rfl⟩
    simp only [List.mem_cons, List.mem_singleton, List.not_mem_nil, or_false] at hdl
    rcases hdl with rfl | rfl
    · cases b
      · simp only [bitHigh, if_neg Bool.false_ne_true]; exact G.zero_high_data
      · simp only [bitHigh, if_pos rfl]; exact G.one_high_data
    · cases b
      · simp only [bitLow, if_neg Bool.false_ne_true]; exact G.zero_low_data
      · simp only [bitLow, if_pos rfl]; exact G.one_low_data
  · simp at h
    rw [h]
    exact G.sync_high_data

/-- On a buffer holding exact template durations the decoding loop
reconstructs the bit string's value. -/
theorem rxLoop_exact {P : Protocol} {u tol : ℤ} (G : GoodTiming P u tol) (T : List ℤ) :
    ∀ (bs : List Bool) (k acc : ℕ),
      (∀ j, j < 2 * bs.length → T.getD (2 * k + 1 + j) 0 = (frameBitsDur P u bs).getD j 0) →
      rxLoop T P u tol (strideIdx (2 * k + 1) bs.length) acc =
        some (bitsToNatFrom acc bs) := by
  intro bs
  induction bs with
  | nil => intro k acc _; simp [strideIdx, rxLoop, bitsToNatFrom]
  | cons b rest ih =>
    intro k acc hT
    have hTh : T.getD (2 * k + 1) 0 = bitHigh P u b := by
      have := hT 0 (by simp only [List.length_cons]; omega)
      rwa [Nat.add_zero, frameBitsDur_cons] at this
    have hTl : T.getD (2 * k + 1 + 1) 0 = bitLow P u b := by
      have := hT 1 (by simp only [List.length_cons]; omega)
      rwa [frameBitsDur_cons] at this
    have hshift : ∀ j, j < 2 * rest.length →
        T.getD (2 * (k + 1) + 1 + j) 0 = (frameBitsDur P u rest).getD j 0 := by
      intro j hj
      have := hT (j + 2) (by simp only [List.length_cons]; omega)
      rw [frameBitsDur_cons] at this
      rw [show 2 * (k + 1) + 1 + j = 2 * k + 1 + (j + 2) from by omega, this]
      simp [List.getD_cons_succ]
    rw [List.length_cons, strideIdx, rxLoop, pairMatches, hTh, hTl]
    cases b with
    | false =>
      rw [show bitHigh P u false = P.zero_high * u from rfl,
        show bitLow P u false = P.zero_low * u from rfl,
        componentMatches_exact u tol P.zero_high G.htol,
        componentMatches_exact u tol P.zero_low G.htol]
      simp only [Bool.and_true, if_true]
      rw [show 2 * k + 1 + 2 = 2 * (k + 1) + 1 from by omega]
      rw [ih (k + 1) (2 * acc) hshift]
      rfl
    | true =>
      rw [show bitHigh P u true = P.one_high * u from rfl,
        show bitLow P u true = P.one_low * u from rfl]
      rw [G.sep]
      simp only [Bool.false_eq_true, if_false]
      rw [pairMatches, hTh, hTl,
        show bitHigh P u true = P.one_high * u from rfl,
        show bitLow P u true = P.one_low * u from rfl,
        componentMatches_exact u tol P.one_high G.htol,
        componentMatches_exact u tol P.one_low G.htol]
      simp only [Bool.and_true, if_true]
      rw [show 2 * k + 1 + 2 = 2 * (k + 1) + 1 from by omega]
      rw [ih (k + 1) (2 * acc + 1) hshift]
      rfl

/-- Running `_rx_waveform` on a buffer holding one exact frame: the mailbox is
written with the frame's value. -/
theorem rxWaveform_exact {P : Protocol} {u tol : ℤ} (G : GoodTiming P u tol)
    (st : RFDevice) (bs : List Bool) (L : ℕ) (ts : ℤ)
    (hbs : bs.length = L) (hL : 3 ≤ L)
    (hT0 : st.rx_timings.getD 0 0 = P.sync_low * u)
    (hTj : ∀ j, j < 2 * L → st.rx_timings.getD (1 + j) 0 = (frameBitsDur P u bs).getD j 0)
    (htol : st.rx_tolerance = tol)
    (hcc : st.rx_change_count = ((2 * L + 1 : ℕ) : ℤ))
    (hnz : bitsToNat bs ≠ 0) :
    rxWaveform P st (2 * L + 1) ts =
      ({ st with rx_code := some (bitsToNat bs), rx_code_timestamp := some ts }, true) := by
  have hdelay : Int.tdiv (st.rx_timings.getD 0 0) P.sync_low = u := by
    rw [hT0]; exact G.hdelay
  have hloop : rxLoop st.rx_timings P u tol (oddIndicesBelow (2 * L + 1)) 0 =
      some (bitsToNat bs) := by
    rw [oddIndicesBelow_stride, ← hbs]
    have := rxLoop_exact G st.rx_timings bs 0 0
      (by intro j hj; rw [show 2 * 0 + 1 + j = 1 + j from by omega]; exact hTj j (by omega))
    rw [show 2 * 0 + 1 = 1 from rfl] at this
    rw [this, ← bitsToNat_eq_from]
  rw [rxWaveform]
  simp only [hdelay, htol, hloop]
  rw [if_pos ⟨by rw [hcc]; push_cast; omega, hnz⟩]

/-! ## Frame-level simulation -/

/-- The receiver state right after a sync edge has been processed: one
pending slot holding the sync-low interval (from which the next decode will
derive its `delay`), with the device's protocol and tolerance intact. -/
def Canon (P : Protocol) (u tol : ℤ) (pnum : ℕ) (st : RFDevice) : Prop :=
  st.rx_change_count = 1 ∧
  st.rx_timings.getD 0 0 = P.sync_low * u ∧
  st.rx_timings.length = MAX_CHANGES + 1 ∧
  st.rx_tolerance = tol ∧
  st.rx_proto = pnum

theorem getD_set_zero (l : List ℤ) (v : ℤ) (h : 0 < l.length) :
    (l.set 0 v).getD 0 0 = v := by
  cases l with
  | nil => simp at h
  | cons x xs => rfl

/-- Processing one exact frame from a canonical state: the buffer refills,
the closing sync decodes it, and the mailbox receives the frame's value. -/
theorem frameStep {P : Protocol} {u tol : ℤ} {pnum : ℕ} (G : GoodTiming P u tol)
    (hP : protocolAt pnum = some P) (st : RFDevice) (hC : Canon P u tol pnum st)
    (bs : List Bool) (L : ℕ) (hbs : bs.length = L) (hL3 : 3 ≤ L) (hL32 : L ≤ 32)
    (hnz : bitsToNat bs ≠ 0) :
    ∃ st', runCallbacks st (edgesFrom st.rx_last_timestamp (frameFull P u bs)) = some st' ∧
      Canon P u tol pnum st' ∧ st'.rx_code = some (bitsToNat bs) ∧
      st'.rx_last_timestamp = st.rx_last_timestamp + (frameFull P u bs).sum := by
  obtain ⟨hcc, hT0, hlen, htol, hproto⟩ := hC
  have hfd_len : (frameData P u bs).length = 2 * L + 1 := by
    simp [frameData, length_frameBitsDur, hbs]
  -- phase 1: the data intervals
  have hrun := rx_dataRun (frameData P u bs) st 1 (by rw [hcc]; norm_num)
    (by rw [hfd_len]; simp [MAX_CHANGES]; omega)
    (mem_frameData_bounds G bs)
  set st1 : RFDevice := { st with
      rx_timings := writeSeq st.rx_timings 1 (frameData P u bs),
      rx_change_count := (1 : ℤ) + (frameData P u bs).length,
      rx_last_timestamp := st.rx_last_timestamp + (frameData P u bs).sum } with hst1
  have hlen1 : st1.rx_timings.length = MAX_CHANGES + 1 := by
    simp [hst1, length_writeSeq, hlen]
  -- phase 2: the closing sync edge
  have hsync := rx_sync_decode st1 (st1.rx_last_timestamp + P.sync_low * u) P (2 * L + 2)
    (by simp [hst1, hproto, hP])
    (by rw [add_sub_cancel_left]; exact G.sync_low_gap)
    (by simp [hst1, hfd_len]; push_cast; ring)
    (by omega)
  rw [add_sub_cancel_left] at hsync
  set st2 : RFDevice := { st1 with
      rx_repeat_count := st1.rx_repeat_count + 1,
      rx_change_count := ((2 * L + 2 : ℕ) : ℤ) - 1 } with hst2
  have hwave := rxWaveform_exact G st2 bs L (st1.rx_last_timestamp + P.sync_low * u) hbs hL3
    (by
      show (writeSeq st.rx_timings 1 (frameData P u bs)).getD 0 0 = P.sync_low * u
      rw [writeSeq_getD_lt _ _ _ _ (by omega), hT0])
    (by
      intro j hj
      show (writeSeq st.rx_timings 1 (frameData P u bs)).getD (1 + j) 0 =
        (frameBitsDur P u bs).getD j 0
      rw [writeSeq_getD _ _ _ _ (by omega) (by rw [hfd_len, hlen]; simp [MAX_CHANGES]; omega)]
      rw [frameData, List.getD_append _ _ _ _ (by rw [length_frameBitsDur, hbs]; omega)])
    (by simp [hst2, htol, hst1])
    (by simp [hst2]; push_cast; ring)
    hnz
  have hn1 : (2 * L + 2) - 1 = 2 * L + 1 := by omega
  rw [hn1] at hsync
  rw [hwave] at hsync
  -- assemble
  have hchain : runCallbacks st (edgesFrom st.rx_last_timestamp (frameFull P u bs)) =
      rx_callback st1 (st1.rx_last_timestamp + P.sync_low * u) := by
    rw [show frameFull P u bs = frameData P u bs ++ [P.sync_low * u] from rfl,
      edgesFrom_append, runCallbacks_append, hrun, Option.some_bind]
    rw [show edgesFrom (st.rx_last_timestamp + (frameData P u bs).sum) [P.sync_low * u] =
      [st.rx_last_timestamp + (frameData P u bs).sum + P.sync_low * u] from rfl]
    rw [show st.rx_last_timestamp + (frameData P u bs).sum = st1.rx_last_timestamp from rfl]
    rw [runCallbacks]
    cases rx_callback st1 (st1.rx_last_timestamp + P.sync_low * u) <;> simp [runCallbacks]
  refine ⟨_, hchain.trans hsync, ?_, ?_, ?_⟩
  · refine ⟨rfl, ?_, ?_, ?_, ?_⟩
    · exact getD_set_zero _ _ (by rw [hlen1]; simp [MAX_CHANGES])
    · simp [hlen1]
    · simp [hst2, hst1, htol]
    · simp [hst2, hst1, hproto]
  · rfl
  · show st1.rx_last_timestamp + P.sync_low * u =
      st.rx_last_timestamp + (frameFull P u bs).sum
    simp [hst1, frameFull]
    ring

/-- Processing one frame from an uncalibrated state (the very first frame
after power-up, whose slot 0 holds arbitrary data): the decode outcome is
unknown, but the closing sync always leaves the state canonical. -/
theorem syncLanding {P : Protocol} {u tol : ℤ} {pnum : ℕ} (G : GoodTiming P u tol)
    (hP : protocolAt pnum = some P) (st : RFDevice) (m : ℕ)
    (hm : st.rx_change_count = (m : ℤ))
    (hlen : st.rx_timings.length = MAX_CHANGES + 1)
    (htol : st.rx_tolerance = tol) (hproto : st.rx_proto = pnum)
    (bs : List Bool) (L : ℕ) (hbs : bs.length = L) (hL3 : 3 ≤ L)
    (hmL : m + (2 * L + 1) ≤ MAX_CHANGES) :
    ∃ st', runCallbacks st (edgesFrom st.rx_last_timestamp (frameFull P u bs)) = some st' ∧
      Canon P u tol pnum st' ∧
      st'.rx_last_timestamp = st.rx_last_timestamp + (frameFull P u bs).sum := by
  have hfd_len : (frameData P u bs).length = 2 * L + 1 := by
    simp [frameData, length_frameBitsDur, hbs]
  have hrun := rx_dataRun (frameData P u bs) st m hm
    (by rw [hfd_len]; omega) (mem_frameData_bounds G bs)
  set st1 : RFDevice := { st with
      rx_timings := writeSeq st.rx_timings m (frameData P u bs),
      rx_change_count := (m : ℤ) + (frameData P u bs).length,
      rx_last_timestamp := st.rx_last_timestamp + (frameData P u bs).sum } with hst1
  have hlen1 : st1.rx_timings.length = MAX_CHANGES + 1 := by
    simp [hst1, length_writeSeq, hlen]
  have hsync := rx_sync_decode st1 (st1.rx_last_timestamp + P.sync_low * u) P (m + (2 * L + 1))
    (by simp [hst1, hproto, hP])
    (by rw [add_sub_cancel_left]; exact G.sync_low_gap)
    (by simp [hst1, hfd_len]; try push_cast; try ring)
    (by omega)
  rw [add_sub_cancel_left] at hsync
  have hflds := rxWaveform_fields P
    { st1 with rx_repeat_count := st1.rx_repeat_count + 1,
               rx_change_count := ((m + (2 * L + 1) : ℕ) : ℤ) - 1 }
    (m + (2 * L + 1) - 1) (st1.rx_last_timestamp + P.sync_low * u)
  have hchain : runCallbacks st (edgesFrom st.rx_last_timestamp (frameFull P u bs)) =
      rx_callback st1 (st1.rx_last_timestamp + P.sync_low * u) := by
    rw [show frameFull P u bs = frameData P u bs ++ [P.sync_low * u] from rfl,
      edgesFrom_append, runCallbacks_append, hrun, Option.some_bind]
    rw [show edgesFrom (st.rx_last_timestamp + (frameData P u bs).sum) [P.sync_low * u] =
      [st.rx_last_timestamp + (frameData P u bs).sum + P.sync_low * u] from rfl]
    rw [show st.rx_last_timestamp + (frameData P u bs).sum = st1.rx_last_timestamp from rfl]
    rw [runCallbacks]
    cases rx_callback st1 (st1.rx_last_timestamp + P.sync_low * u) <;> simp [runCallbacks]
  refine ⟨_, hchain.trans hsync, ?_, ?_⟩
  · refine ⟨rfl, ?_, ?_, ?_, ?_⟩
    · exact getD_set_zero _ _ (by rw [hlen1]; simp [MAX_CHANGES])
    · simp [hlen1]
    · show (rxWaveform P _ _ _).1.rx_tolerance = tol
      rw [hflds.2.2.2.2.2.1]
      simp [hst1, htol]
    · show (rxWaveform P _ _ _).1.rx_proto = pnum
      rw [hflds.2.2.2.2.1]
      simp [hst1, hproto]
  · show st1.rx_last_timestamp + P.sync_low * u =
      st.rx_last_timestamp + (frameFull P u bs).sum
    simp [hst1, frameFull]
    ring

/-- Iterating `frameStep` over `k + 1` exact frames from a canonical state:
the mailbox ends holding the frame value. -/
theorem framesRun {P : Protocol} {u tol : ℤ} {pnum : ℕ} (G : GoodTiming P u tol)
    (hP : protocolAt pnum = some P) (bs : List Bool) (L : ℕ)
    (hbs : bs.length = L) (hL3 : 3 ≤ L) (hL32 : L ≤ 32) (hnz : bitsToNat bs ≠ 0) :
    ∀ (k : ℕ) (st : RFDevice), Canon P u tol pnum st →
      ∃ st', runCallbacks st
          (edgesFrom st.rx_last_timestamp (repeatList (frameFull P u bs) (k + 1))) = some st' ∧
        Canon P u tol pnum st' ∧ st'.rx_code = some (bitsToNat bs) ∧
        st'.rx_last_timestamp =
          st.rx_last_timestamp + (k + 1) * (frameFull P u bs).sum := by
  intro k
  induction k with
  | zero =>
    intro st hC
    obtain ⟨st', h1, h2, h3, h4⟩ := frameStep G hP st hC bs L hbs hL3 hL32 hnz
    refine ⟨st', ?_, h2, h3, ?_⟩
    · rw [repeatList_succ, show repeatList (frameFull P u bs) 0 = [] from rfl,
        List.append_nil]
      exact h1
    · rw [h4]; ring
  | succ j ih =>
    intro st hC
    obtain ⟨st1, h1, h2, h3, h4⟩ := frameStep G hP st hC bs L hbs hL3 hL32 hnz
    obtain ⟨st2, g1, g2, g3, g4⟩ := ih st1 h2
    refine ⟨st2, ?_, g2, g3, ?_⟩
    · rw [repeatList_succ, edgesFrom_append, runCallbacks_append, h1, Option.some_bind,
        ← h4]
      exact g1
    · rw [g4, h4]; push_cast; ring

/-- The first edge after power-up: whatever its interval is (noise, data or
sync), at most one slot becomes pending and the timestamp latches. -/
theorem rx_firstEdge (st : RFDevice) (t : ℤ) (h0 : st.rx_change_count = 0) :
    ∃ (st' : RFDevice) (m : ℕ), rx_callback st t = some st' ∧
      st'.rx_change_count = (m : ℤ) ∧ m ≤ 1 ∧
      st'.rx_last_timestamp = t ∧
      st'.rx_timings.length = st.rx_timings.length ∧
      st'.rx_tolerance = st.rx_tolerance ∧ st'.rx_proto = st.rx_proto ∧
      st'.rx_code = st.rx_code := by
  by_cases h1 : t - st.rx_last_timestamp ≤ THRESHOLD_TICK
  · exact ⟨_, 0, rx_noise st t h1, by simpa using h0, by omega, rfl, rfl, rfl, rfl, rfl⟩
  · by_cases h2 : t - st.rx_last_timestamp ≤ THRESHOLD_SYNC
    · refine ⟨_, 1, rx_data st t 0 (by simpa using h0) (by simp [MAX_CHANGES])
        (by omega) h2, by norm_num, by omega, rfl, by simp, rfl, rfl, rfl⟩
    · refine ⟨_, 1, rx_sync_nodecode st t (by omega) (by rw [h0]; norm_num),
        rfl, by omega, rfl, by simp, rfl, rfl, rfl⟩

theorem dropLast_append_ne {α : Type} (l1 l2 : List α) (h : l2 ≠ []) :
    (l1 ++ l2).dropLast = l1 ++ l2.dropLast := by
  cases l2 with
  | nil => exact absurd rfl h
  | cons b t => rw [List.dropLast_append_cons]

theorem repeatList_dropLast (fd : List ℤ) (x : ℤ) :
    ∀ R, 1 ≤ R → (repeatList (fd ++ [x]) R).dropLast =
      repeatList (fd ++ [x]) (R - 1) ++ fd := by
  intro R
  induction R with
  | zero => omega
  | succ j ih =>
    intro _
    cases j with
    | zero =>
      simp [repeatList]
    | succ i =>
      have hne : repeatList (fd ++ [x]) (i + 1) ≠ [] := by
        rw [repeatList_succ]
        simp
      rw [repeatList_succ, dropLast_append_ne _ _ hne, ih (by omega)]
      simp [repeatList_succ]

/-- Master round trip: an arbitrary power-on gap, then `R ≥ 3` exact frames
(the final sync-low gap produces no edge), decode to the frame's value. -/
theorem roundtripMaster {P : Protocol} {u tol : ℤ} {pnum : ℕ} (G : GoodTiming P u tol)
    (hP : protocolAt pnum = some P) (bs : List Bool) (L R : ℕ)
    (hbs : bs.length = L) (hL3 : 3 ≤ L) (hL32 : L ≤ 32) (hnz : bitsToNat bs ≠ 0)
    (hR : 3 ≤ R) (st : RFDevice) (h0 : st.rx_change_count = 0)
    (hlen : st.rx_timings.length = MAX_CHANGES + 1)
    (htol : st.rx_tolerance = tol) (hproto : st.rx_proto = pnum) (d0 : ℤ) :
    ∃ stf, runCallbacks st (edgesFrom st.rx_last_timestamp
        (d0 :: (repeatList (frameFull P u bs) R).dropLast)) = some stf ∧
      stf.rx_code = some (bitsToNat bs) := by
  -- decompose the edge stream
  have hsplit : (repeatList (frameFull P u bs) R).dropLast =
      frameFull P u bs ++ (repeatList (frameFull P u bs) (R - 2) ++ frameData P u bs) := by
    rw [show frameFull P u bs = frameData P u bs ++ [P.sync_low * u] from rfl,
      repeatList_dropLast _ _ R (by omega),
      show R - 1 = (R - 2) + 1 from by omega, repeatList_succ]
    simp
  -- first edge
  obtain ⟨sta, m, ha, ham, hm1, halast, halen, hatol, haproto, hacode⟩ :=
    rx_firstEdge st (st.rx_last_timestamp + d0) h0
  -- first (uncalibrated) frame
  obtain ⟨stb, hb, hbC, hblast⟩ := syncLanding G hP sta m ham (halen.trans hlen)
    (hatol.trans htol) (haproto.trans hproto) bs L hbs hL3
    (by simp [MAX_CHANGES]; omega)
  -- middle exact frames
  obtain ⟨stc, hc, hcC, hccode, hclast⟩ := framesRun G hP bs L hbs hL3 hL32 hnz
    (R - 3) stb hbC
  rw [show R - 3 + 1 = R - 2 from by omega] at hc
  -- trailing data intervals of the final frame (its sync low never edges)
  have htail := rx_dataRun (frameData P u bs) stc 1 (by rw [hcC.1]; norm_num)
    (by simp [frameData, length_frameBitsDur, hbs, MAX_CHANGES]; omega)
    (mem_frameData_bounds G bs)
  rw [edgesFrom, hsplit, runCallbacks, ha, Option.some_bind]
  rw [show st.rx_last_timestamp + d0 = sta.rx_last_timestamp from halast.symm]
  rw [edgesFrom_append, runCallbacks_append, hb, Option.some_bind]
  rw [show sta.rx_last_timestamp + (frameFull P u bs).sum = stb.rx_last_timestamp
    from hblast.symm]
  rw [edgesFrom_append, runCallbacks_append, hc, Option.some_bind]
  rw [sum_repeatList]
  have hcast : ((R - 2 : ℕ) : ℤ) = ((R - 3 : ℕ) : ℤ) + 1 := by omega
  rw [show stb.rx_last_timestamp + ((R - 2 : ℕ) : ℤ) * (frameFull P u bs).sum =
    stc.rx_last_timestamp from by rw [hcast, hclast]]
  rw [htail]
  exact ⟨_, rfl, hccode⟩

/-! ## Transmitted trace as frames -/

theorem bitWave_eq (P : Protocol) (pl : ℤ) (b : Bool) :
    bitWave P pl b = [bitHigh P (pl * SCALE_TIME_US) b, bitLow P (pl * SCALE_TIME_US) b] := by
  cases b <;> simp [bitWave, bitHigh, bitLow, mul_assoc]

theorem flatten_map_bitWave (P : Protocol) (pl : ℤ) (raw : List Bool) :
    (raw.map (bitWave P pl)).flatten = frameBitsDur P (pl * SCALE_TIME_US) raw := by
  induction raw with
  | nil => rfl
  | cons b t ih => rw [List.map_cons, List.flatten_cons, bitWave_eq, frameBitsDur_cons, ih]; rfl

theorem txOnce_frameFull (st : RFDevice) (P : Protocol) (hen : st.tx_enabled = true)
    (hP : protocolAt st.tx_proto = some P) (h6 : st.tx_proto ≠ 6) (raw : List Bool)
    (hlen : raw.length = st.tx_length) :
    txOnce st raw = some (frameFull P (st.tx_pulselength * SCALE_TIME_US) raw) := by
  rw [txOnce_eq st P hen hP h6 raw (le_of_eq hlen.symm)]
  congr 1
  rw [← hlen, List.take_length, flatten_map_bitWave]
  simp [frameFull, frameData, syncWave, mul_assoc]

theorem tx_code_frames (st : RFDevice) (P : Protocol) (c : ℕ) (hen : st.tx_enabled = true)
    (hP : protocolAt st.tx_proto = some P) (h6 : st.tx_proto ≠ 6)
    (hfit : (binDigits c).length ≤ st.tx_length) :
    tx_code st c = (st, some (repeatList
      (frameFull P (st.tx_pulselength * SCALE_TIME_US) (rawcodeOf st.tx_length c))
      st.tx_repeat)) := by
  rw [tx_code]
  simp only [if_neg h6]
  rw [tx_bin, txRepeats_eq st (rawcodeOf st.tx_length c) _
    (txOnce_frameFull st P hen hP h6 _ (rawcodeOf_length _ _ hfit))]

/-! ## Per-protocol timing instances -/

theorem goodTiming_p1 : GoodTiming ⟨350, 1, 31, 1, 3, 3, 1⟩ ((350 : ℤ) * 3) 70 := by
  refine ⟨?_, ?_, ?_, ?_, ?_, ?_, ?_, ?_, ?_⟩ <;> decide

theorem goodTiming_p2 : GoodTiming ⟨650, 1, 10, 1, 2, 2, 1⟩ ((650 : ℤ) * 3) 70 := by
  refine ⟨?_, ?_, ?_, ?_, ?_, ?_, ?_, ?_, ?_⟩ <;> decide

theorem goodTiming_p3 : GoodTiming ⟨100, 30, 71, 4, 11, 9, 6⟩ ((100 : ℤ) * 3) 70 := by
  refine ⟨?_, ?_, ?_, ?_, ?_, ?_, ?_, ?_, ?_⟩ <;> decide

theorem goodTiming_p5 : GoodTiming ⟨500, 6, 14, 1, 2, 2, 1⟩ ((500 : ℤ) * 3) 70 := by
  refine ⟨?_, ?_, ?_, ?_, ?_, ?_, ?_, ?_, ?_⟩ <;> decide

/-- The device record `RFDevice.__init__` builds for a valid protocol with
no pulse-length override. -/
def mkDevice (p : ℕ) (pl : ℤ) (R L : ℕ) (tol : ℤ) : RFDevice :=
  ⟨false, p, pl, R, L, false, tol, List.replicate (MAX_CHANGES + 1) 0, 0, 0, 0,
    none, none, p⟩

theorem initDevice_mk (p : ℕ) (P : Protocol) (R L : ℕ) (tol : ℤ)
    (hPA : protocolAt p = some P) :
    initDevice p none R L tol = some (mkDevice p P.pulselength R L tol) := by
  simp only [initDevice, hPA, Option.map_some']
  rfl

/-- Round trip for one device built by `initDevice`, generic in the
protocol provided its timings satisfy `GoodTiming`. -/
theorem roundtripInit (p : ℕ) (P : Protocol) (hPA : protocolAt p = some P) (h6 : p ≠ 6)
    (G : GoodTiming P (P.pulselength * SCALE_TIME_US) 70)
    (L R c : ℕ) (hL3 : 3 ≤ L) (hL32 : L ≤ 32) (hR : 3 ≤ R) (hc0 : 0 < c) (hcL : c < 2 ^ L)
    (dev : RFDevice) (hdev : initDevice p none R L 70 = some dev)
    (tr : List ℤ) (htr : (tx_code { dev with tx_enabled := true } c).2 = some tr) (t0 : ℤ) :
    ∃ stf, runCallbacks dev (edgesFrom 0 (t0 :: tr.dropLast)) = some stf ∧
      stf.rx_code = some c := by
  have hdev2 : dev = mkDevice p P.pulselength R L 70 := by
    rw [initDevice_mk p P R L 70 hPA] at hdev
    exact (Option.some.inj hdev).symm
  subst hdev2
  have hfit : (binDigits c).length ≤ L := binDigits_length_le c L (by omega) hcL
  have htx := tx_code_frames { mkDevice p P.pulselength R L 70 with tx_enabled := true }
    P c rfl hPA h6 hfit
  have htr2 : tr = repeatList
      (frameFull P (P.pulselength * SCALE_TIME_US) (rawcodeOf L c)) R := by
    have h := htr
    rw [htx] at h
    exact (Option.some.inj h).symm
  have hraw_len : (rawcodeOf L c).length = L := rawcodeOf_length L c hfit
  have hnz : bitsToNat (rawcodeOf L c) ≠ 0 := by
    rw [bitsToNat_rawcodeOf]; omega
  obtain ⟨stf, h1, h2⟩ := roundtripMaster G hPA (rawcodeOf L c) L R hraw_len hL3 hL32 hnz hR
    (mkDevice p P.pulselength R L 70) rfl (by simp [mkDevice]) rfl rfl t0
  refine ⟨stf, ?_, ?_⟩
  · rw [htr2]
    exact h1
  · rw [h2, bitsToNat_rawcodeOf]

/-! ## Claim C1 -/

/-- C1 (corrected): round trip holds for protocols 1, 2, 3 and 5 — but not
for protocol 4, whose sync-low gap (6·380·3 = 6840 µs) never exceeds
`THRESHOLD_SYNC`.  For a device built by `initDevice` with protocol
`p ∈ {1, 2, 3, 5}`, default pulse length and tolerance 70, any frame length
`3 ≤ bit_length ≤ 32`, any repeat count `≥ 3`, and any nonzero code that
fits in `bit_length` bits: transmitting the code and feeding the resulting
edge-interval sequence (an arbitrary initial gap `t0`, then the exact pulse
durations; the final sync-low gap produces no edge) into `rx_callback`
leaves the decoded code in the mailbox. -/
theorem c1_roundtrip_amended (p : ℕ) (hp : p = 1 ∨ p = 2 ∨ p = 3 ∨ p = 5)
    (L R c : ℕ) (hL3 : 3 ≤ L) (hL32 : L ≤ 32) (hR : 3 ≤ R)
    (hc0 : 0 < c) (hcL : c < 2 ^ L)
    (dev : RFDevice) (hdev : initDevice p none R L 70 = some dev)
    (tr : List ℤ) (htr : (tx_code { dev with tx_enabled := true } c).2 = some tr)
    (t0 : ℤ) :
    ∃ stf, runCallbacks dev (edgesFrom 0 (t0 :: tr.dropLast)) = some stf ∧
      stf.rx_code = some c := by
  rcases hp with rfl | rfl | rfl | rfl
  · exact roundtripInit 1 _ rfl (by decide) goodTiming_p1 L R c hL3 hL32 hR hc0 hcL
      dev hdev tr htr t0
  · exact roundtripInit 2 _ rfl (by decide) goodTiming_p2 L R c hL3 hL32 hR hc0 hcL
      dev hdev tr htr t0
  · exact roundtripInit 3 _ rfl (by decide) goodTiming_p3 L R c hL3 hL32 hR hc0 hcL
      dev hdev tr htr t0
  · exact roundtripInit 5 _ rfl (by decide) goodTiming_p5 L R c hL3 hL32 hR hc0 hcL
      dev hdev tr htr t0

set_option maxRecDepth 20000 in
/-- Witness for C1: protocol 1, bit length 3, 3 repeats, code 5,
initial gap 20000 µs. -/
theorem c1_roundtrip_amended_witness :
    ∃ stf, runCallbacks (mkDevice 1 350 3 3 70)
        (edgesFrom 0 ((20000 : ℤ) ::
          (((tx_code { mkDevice 1 350 3 3 70 with tx_enabled := true } 5).2).getD
            []).dropLast)) = some stf ∧
      stf.rx_code = some 5 :=
  c1_roundtrip_amended 1 (Or.inl rfl) 3 3 5 (by norm_num) (by norm_num) (by norm_num)
    (by norm_num) (by norm_num) (mkDevice 1 350 3 3 70) (by rfl)
    (((tx_code { mkDevice 1 350 3 3 70 with tx_enabled := true } 5).2).getD []) (by rfl)
    20000

set_option maxRecDepth 20000 in
/-- Counterexample for C1 as stated: protocol 4 is inside the claimed range
1..5, yet with bit length 8, 3 repeats and code 255 the transmitted edge
sequence decodes to nothing — protocol 4's sync-low interval
(6 · 380 · 3 = 6840 µs) never exceeds `THRESHOLD_SYNC`, so no frame
boundary is ever recognised and the mailbox stays empty. -/
theorem c1_roundtrip_counterexample :
    ((runCallbacks (mkDevice 4 380 3 8 70)
        (edgesFrom 0 ((20000 : ℤ) ::
          (((tx_code { mkDevice 4 380 3 8 70 with tx_enabled := true } 255).2).getD
            []).dropLast))).map RFDevice.rx_code) = some none ∧
      (255 : ℕ) < 2 ^ 8 ∧ 0 < (255 : ℕ) := by
  constructor
  · decide
  · constructor <;> norm_num

/-! ## Claim C3 -/

/-- C3 (corrected): an edge whose interval is at most `THRESHOLD_TICK`
leaves `change_count`, the whole interval buffer, `repeat_count` and the
mailbox untouched — but `last_edge_timestamp` IS updated, because the
`self._rx_last_timestamp = timestamp` assignment sits outside the noise
check and runs on every invocation. -/
theorem c3_noise_amended (st : RFDevice) (t : ℤ)
    (h : t - st.rx_last_timestamp ≤ THRESHOLD_TICK) :
    ∃ st', rx_callback st t = some st' ∧
      st'.rx_change_count = st.rx_change_count ∧
      st'.rx_timings = st.rx_timings ∧
      st'.rx_repeat_count = st.rx_repeat_count ∧
      st'.rx_code = st.rx_code ∧
      st'.rx_last_timestamp = t :=
  ⟨_, rx_noise st t h, rfl, rfl, rfl, rfl, rfl⟩

/-- Witness for C3: the fresh protocol-1 device and an edge at 200 µs. -/
theorem c3_noise_amended_witness :
    ((200 : ℤ) - (mkDevice 1 350 10 24 70).rx_last_timestamp ≤ THRESHOLD_TICK) ∧
    (∃ st', rx_callback (mkDevice 1 350 10 24 70) 200 = some st' ∧
      st'.rx_change_count = (mkDevice 1 350 10 24 70).rx_change_count ∧
      st'.rx_timings = (mkDevice 1 350 10 24 70).rx_timings ∧
      st'.rx_repeat_count = (mkDevice 1 350 10 24 70).rx_repeat_count ∧
      st'.rx_code = (mkDevice 1 350 10 24 70).rx_code ∧
      st'.rx_last_timestamp = 200) :=
  ⟨by decide, c3_noise_amended (mkDevice 1 350 10 24 70) 200 (by decide)⟩

/-- Counterexample for C3 as stated: on the fresh device
(`last_edge_timestamp = 0`) a 200 µs noise edge moves
`last_edge_timestamp` to 200, so the noise edge is not ignored entirely. -/
theorem c3_noise_counterexample :
    (rx_callback (mkDevice 1 350 10 24 70) 200).map RFDevice.rx_last_timestamp = some 200 ∧
    (mkDevice 1 350 10 24 70).rx_last_timestamp = 0 ∧
    (200 : ℤ) - (mkDevice 1 350 10 24 70).rx_last_timestamp ≤ THRESHOLD_TICK ∧
    (200 : ℤ) ≠ 0 := by
  refine ⟨by decide, by decide, by decide, by decide⟩

/-! ## Claim C4 -/

/-- C4 (corrected): the decoder's template comparison is strict
(`abs(...) < delay_tolerance`), so an interval whose deviation `d` from the
template is strictly below `delay_tolerance = delay·tolerance/100` matches,
while a deviation exactly at `delay_tolerance` — and anything beyond —
does not match. -/
theorem c4_tolerance_amended (delay mult tol d : ℤ) (hd : 0 ≤ d) :
    (componentMatches (delay * mult + d) delay mult tol = true ↔
      100 * d < delay * tol) := by
  unfold componentMatches
  rw [add_sub_cancel_left, Int.natAbs_of_nonneg hd]
  exact decide_eq_true_iff

/-- Witness for C4: protocol-1 values `delay = 1050`, `tolerance = 70`
(`delay_tolerance = 735`), deviation 700 is inside the window. -/
theorem c4_tolerance_amended_witness :
    (0 : ℤ) ≤ 700 ∧
    (componentMatches (1050 * 1 + 700) 1050 1 70 = true ↔ (100 : ℤ) * 700 < 1050 * 70) :=
  ⟨by norm_num, c4_tolerance_amended 1050 1 70 700 (by norm_num)⟩

/-- Counterexample for C4 as stated: with `delay = 1050` and
`tolerance = 70`, `delay_tolerance = 735` exactly; an observed interval
`1785 = 1050·1 + 735` deviates by exactly `delay_tolerance` yet does NOT
match (the comparison is strict). -/
theorem c4_tolerance_counterexample :
    componentMatches 1785 1050 1 70 = false ∧
    (100 : ℤ) * (((1785 : ℤ) - 1050 * 1).natAbs : ℤ) = 1050 * 70 := by
  refine ⟨by decide, by decide⟩

/-! ## Claim C5 -/

/-- C5 (corrected): a sync-classified edge increments `repeat_count`,
decrements `change_count`, and invokes the decoder iff the adjusted count
exceeds 1 — but `rx_callback` then falls through to the buffer store, so
the sync interval itself is written at slot 0 and `change_count` ends the
invocation at 1, not 0. -/
theorem c5_sync_amended (st : RFDevice) (t : ℤ) (P : Protocol) (n : ℕ)
    (hP : protocolAt st.rx_proto = some P)
    (h1 : THRESHOLD_SYNC < t - st.rx_last_timestamp)
    (hn : st.rx_change_count = (n : ℤ)) :
    ∃ st', rx_callback st t = some st' ∧
      st'.rx_repeat_count = st.rx_repeat_count + 1 ∧
      st'.rx_change_count = 1 ∧
      st'.rx_timings = st.rx_timings.set 0 (t - st.rx_last_timestamp) ∧
      st'.rx_last_timestamp = t ∧
      (3 ≤ n → st'.rx_code =
        (rxWaveform P { st with rx_repeat_count := st.rx_repeat_count + 1,
                                rx_change_count := (n : ℤ) - 1 } (n - 1) t).1.rx_code) ∧
      (n < 3 → st'.rx_code = st.rx_code) := by
  by_cases h3 : 3 ≤ n
  · have hflds := rxWaveform_fields P
      { st with rx_repeat_count := st.rx_repeat_count + 1,
                rx_change_count := (n : ℤ) - 1 } (n - 1) t
    refine ⟨_, rx_sync_decode st t P n hP h1 hn h3, ?_, rfl, rfl, rfl, ?_, ?_⟩
    · show (rxWaveform P _ _ _).1.rx_repeat_count = st.rx_repeat_count + 1
      rw [hflds.2.2.1]
    · intro _; rfl
    · intro hlt; omega
  · refine ⟨_, rx_sync_nodecode st t h1 (by rw [hn]; omega), rfl, rfl, rfl, rfl, ?_, ?_⟩
    · intro h3'; omega
    · intro _; rfl

/-- A protocol-1 device with five pending intervals, used to exercise C5. -/
def c5State : RFDevice := { mkDevice 1 350 10 24 70 with rx_change_count := 5 }

/-- Witness for C5: a sync edge at 20000 µs on a device with five pending
intervals. -/
theorem c5_sync_amended_witness :
    (protocolAt c5State.rx_proto = some ⟨350, 1, 31, 1, 3, 3, 1⟩) ∧
    (THRESHOLD_SYNC < (20000 : ℤ) - c5State.rx_last_timestamp) ∧
    (c5State.rx_change_count = ((5 : ℕ) : ℤ)) ∧
    (∃ st', rx_callback c5State 20000 = some st' ∧
      st'.rx_repeat_count = c5State.rx_repeat_count + 1 ∧
      st'.rx_change_count = 1 ∧
      st'.rx_timings = c5State.rx_timings.set 0 (20000 - c5State.rx_last_timestamp) ∧
      st'.rx_last_timestamp = 20000 ∧
      (3 ≤ 5 → st'.rx_code =
        (rxWaveform ⟨350, 1, 31, 1, 3, 3, 1⟩
          { c5State with rx_repeat_count := c5State.rx_repeat_count + 1,
                         rx_change_count := ((5 : ℕ) : ℤ) - 1 } (5 - 1) 20000).1.rx_code) ∧
      (5 < 3 → st'.rx_code = c5State.rx_code)) :=
  ⟨by decide, by decide, by decide,
    c5_sync_amended c5State 20000 ⟨350, 1, 31, 1, 3, 3, 1⟩ 5 (by decide) (by decide) (by decide)⟩

/-- Counterexample for C5 as stated: after the sync edge, `change_count`
is 1 (not 0) and the 20000 µs sync interval has been stored at slot 0. -/
theorem c5_sync_counterexample :
    (rx_callback c5State 20000).map RFDevice.rx_change_count = some 1 ∧
    (rx_callback c5State 20000).map (fun s => s.rx_timings.getD 0 0) = some 20000 ∧
    THRESHOLD_SYNC < (20000 : ℤ) - c5State.rx_last_timestamp := by
  refine ⟨by decide, by decide, by decide⟩

/-! ## Claim C7 -/

/-- C7: the code contradicts the claim (this is the bug §9 of the spec
flags): `tx_code` on a protocol-6 device persistently sets
`self.tx_length = 64`, so after `send_code` returns, the configured frame
length is 64 regardless of its previous value (here 32). -/
theorem c7_txlength_mutation :
    (tx_code { mkDevice 6 200 1 32 70 with tx_enabled := true } 5).1.tx_length = 64 ∧
    ({ mkDevice 6 200 1 32 70 with tx_enabled := true } : RFDevice).tx_length = 32 := by
  refine ⟨by decide, by decide⟩

/-! ## Claim C10 -/

theorem txOnce_frameFull_take (st : RFDevice) (P : Protocol) (hen : st.tx_enabled = true)
    (hP : protocolAt st.tx_proto = some P) (h6 : st.tx_proto ≠ 6) (raw : List Bool)
    (hlen : st.tx_length ≤ raw.length) :
    txOnce st raw =
      some (frameFull P (st.tx_pulselength * SCALE_TIME_US) (raw.take st.tx_length)) := by
  rw [txOnce_eq st P hen hP h6 raw hlen]
  congr 1
  rw [flatten_map_bitWave]
  simp [frameFull, frameData, syncWave, mul_assoc]

theorem rawcodeOf_of_long (L c : ℕ) (h : L ≤ (binDigits c).length) :
    rawcodeOf L c = binDigits c := by
  rw [rawcodeOf, Nat.sub_eq_zero_of_le h]
  rfl

/-- C10 (confirmed): for protocols 1..5 and a code whose binary
representation is longer than `bit_length`, `tx_code` reports success
(`some` trace), leaves the device unchanged, and transmits per repeat a
frame built from exactly the first `bit_length` characters of `bin(code)` —
the most significant bits — whose value is `code >> (len - bit_length)`;
the low-order bits are silently dropped. -/
theorem c10_overlong_code (st : RFDevice) (c : ℕ)
    (hen : st.tx_enabled = true) (hp1 : 1 ≤ st.tx_proto) (hp5 : st.tx_proto ≤ 5)
    (hover : st.tx_length < (binDigits c).length) :
    ∃ P, protocolAt st.tx_proto = some P ∧
      tx_code st c = (st, some (repeatList
        (frameFull P (st.tx_pulselength * SCALE_TIME_US) ((binDigits c).take st.tx_length))
        st.tx_repeat)) ∧
      bitsToNat ((binDigits c).take st.tx_length) =
        c / 2 ^ ((binDigits c).length - st.tx_length) := by
  have hex : ∀ q : ℕ, 1 ≤ q → q ≤ 5 → ∃ P, protocolAt q = some P := by
    intro q h1 h5
    interval_cases q <;> exact ⟨_, rfl⟩
  obtain ⟨P, hP⟩ := hex st.tx_proto hp1 hp5
  have h6 : st.tx_proto ≠ 6 := by omega
  refine ⟨P, hP, ?_, ?_⟩
  · rw [tx_code]
    simp only [if_neg h6]
    rw [rawcodeOf_of_long _ _ (le_of_lt hover), tx_bin,
      txRepeats_eq st (binDigits c) _
        (txOnce_frameFull_take st P hen hP h6 _ (le_of_lt hover))]
  · rw [bitsToNat_take _ _ (le_of_lt hover), bitsToNat_binDigits]

/-- A protocol-1 transmitter with `bit_length = 4`, used for C10. -/
def c10Dev : RFDevice := { mkDevice 1 350 2 4 70 with tx_enabled := true }

/-- Witness for C10: code 255 has 8 binary digits, bit_length is 4; the
top 4 bits (value 15 = 255 / 16) are transmitted. -/
theorem c10_overlong_code_witness :
    c10Dev.tx_enabled = true ∧ 1 ≤ c10Dev.tx_proto ∧ c10Dev.tx_proto ≤ 5 ∧
    c10Dev.tx_length < (binDigits 255).length ∧
    (∃ P, protocolAt c10Dev.tx_proto = some P ∧
      tx_code c10Dev 255 = (c10Dev, some (repeatList
        (frameFull P (c10Dev.tx_pulselength * SCALE_TIME_US)
          ((binDigits 255).take c10Dev.tx_length))
        c10Dev.tx_repeat)) ∧
      bitsToNat ((binDigits 255).take c10Dev.tx_length) =
        255 / 2 ^ ((binDigits 255).length - c10Dev.tx_length)) :=
  ⟨rfl, by decide, by decide, by decide,
    c10_overlong_code c10Dev 255 rfl (by decide) (by decide) (by decide)⟩

/-! ## Claim C2 -/

theorem length_nexaExpand (l : List Bool) : (nexaExpand l).length = 2 * l.length := by
  induction l with
  | nil => rfl
  | cons b t ih =>
    rw [nexaExpand, List.map_cons, List.flatten_cons]
    rw [nexaExpand] at ih
    cases b <;> simp [ih] <;> omega

/-- C2 (corrected): on a protocol-6 device, `tx_code` expands the
zero-padded pattern bit-by-bit (`0 → 01`, `1 → 10`, which is `nexaExpand`)
and sets the frame length for the send to 64 — but the 64-bit frame is
only transmitted when the configured `bit_length` is at least 32, in which
case each of the `repeat_count` repetitions carries a sync waveform before
the 64 expanded bits and the closing sync after them.  For `bit_length`
below 32 the expanded pattern is shorter than 64 characters and the send
dies with an index error instead (see the counterexample). -/
theorem c2_p6_amended (st : RFDevice) (c : ℕ) (hen : st.tx_enabled = true)
    (h6 : st.tx_proto = 6) (hL : 32 ≤ st.tx_length) :
    ((nexaExpand (rawcodeOf st.tx_length c)).take 64).length = 64 ∧
    tx_code st c = ({ st with tx_length := 64 },
      some (repeatList
        (syncWave ⟨200, 1, 10, 1, 5, 1, 1⟩ st.tx_pulselength ++
          (((nexaExpand (rawcodeOf st.tx_length c)).take 64).map
            (bitWave ⟨200, 1, 10, 1, 5, 1, 1⟩ st.tx_pulselength)).flatten ++
          syncWave ⟨200, 1, 10, 1, 5, 1, 1⟩ st.tx_pulselength)
        st.tx_repeat)) := by
  have hexp : 64 ≤ (nexaExpand (rawcodeOf st.tx_length c)).length := by
    rw [length_nexaExpand]
    have : st.tx_length ≤ (rawcodeOf st.tx_length c).length := by
      rw [rawcodeOf]
      simp
      omega
    omega
  constructor
  · rw [List.length_take]
    omega
  · rw [tx_code]
    simp only [if_pos h6]
    have hP6 : protocolAt ({ st with tx_length := 64 } : RFDevice).tx_proto =
        some ⟨200, 1, 10, 1, 5, 1, 1⟩ := by
      show protocolAt st.tx_proto = _
      rw [h6]
      rfl
    have honce := txOnce_eq_p6 { st with tx_length := 64 } ⟨200, 1, 10, 1, 5, 1, 1⟩
      hen hP6 h6 (nexaExpand (rawcodeOf st.tx_length c)) hexp
    rw [tx_bin, txRepeats_eq _ _ _ honce]

/-- A protocol-6 transmitter with `bit_length = 32`, used for C2. -/
def c2Dev : RFDevice := { mkDevice 6 200 2 32 70 with tx_enabled := true }

set_option maxRecDepth 20000 in
/-- Witness for C2: bit_length 32 expands to exactly 64 bits. -/
theorem c2_p6_amended_witness :
    c2Dev.tx_enabled = true ∧ c2Dev.tx_proto = 6 ∧ 32 ≤ c2Dev.tx_length ∧
    (((nexaExpand (rawcodeOf c2Dev.tx_length 255)).take 64).length = 64 ∧
    tx_code c2Dev 255 = ({ c2Dev with tx_length := 64 },
      some (repeatList
        (syncWave ⟨200, 1, 10, 1, 5, 1, 1⟩ c2Dev.tx_pulselength ++
          (((nexaExpand (rawcodeOf c2Dev.tx_length 255)).take 64).map
            (bitWave ⟨200, 1, 10, 1, 5, 1, 1⟩ c2Dev.tx_pulselength)).flatten ++
          syncWave ⟨200, 1, 10, 1, 5, 1, 1⟩ c2Dev.tx_pulselength)
        c2Dev.tx_repeat))) :=
  ⟨rfl, rfl, by decide, c2_p6_amended c2Dev 255 rfl rfl (by decide)⟩

set_option maxRecDepth 20000 in
/-- Counterexample for C2 as stated: with the default-style `bit_length`
of 24 the expanded pattern has only 48 characters, `tx_bin` indexes past
its end (an `IndexError` in Python), and nothing resembling a 64-bit frame
is transmitted — the claim's "regardless of the configured bit_length"
fails. -/
theorem c2_p6_counterexample :
    (tx_code { mkDevice 6 200 2 24 70 with tx_enabled := true } 255).2 = none ∧
    ({ mkDevice 6 200 2 24 70 with tx_enabled := true } : RFDevice).tx_length = 24 ∧
    (nexaExpand (rawcodeOf 24 255)).length = 48 := by
  refine ⟨by decide, by decide, by decide⟩

/-! ## Claim C6 -/

/-- The receive-buffer invariant: the pending-slot cursor stays inside
`[0, MAX_CHANGES]` and the buffer keeps its fixed `MAX_CHANGES + 1 = 68`
slots, so every buffer write (`timings[change_count] = duration` after the
guard) and every decode read (indices `1..change_count-1+1 ≤ MAX_CHANGES`)
is in bounds. -/
def rxInv (st : RFDevice) : Prop :=
  0 ≤ st.rx_change_count ∧ st.rx_change_count ≤ (MAX_CHANGES : ℤ) ∧
    st.rx_timings.length = MAX_CHANGES + 1

/-- A data edge that hits the overflow guard: both counters are reset, the
partial frame is discarded, and the new duration is stored at slot 0. -/
theorem rx_data_overflow (st : RFDevice) (t : ℤ)
    (h67 : st.rx_change_count ≥ (MAX_CHANGES : ℤ))
    (h1 : THRESHOLD_TICK < t - st.rx_last_timestamp)
    (h2 : t - st.rx_last_timestamp ≤ THRESHOLD_SYNC) :
    rx_callback st t =
      some { st with rx_change_count := 1, rx_repeat_count := 0,
                     rx_timings := st.rx_timings.set 0 (t - st.rx_last_timestamp),
                     rx_last_timestamp := t } := by
  simp only [rx_callback]
  rw [if_pos (by omega : t - st.rx_last_timestamp > THRESHOLD_TICK),
    if_neg (by omega : ¬ t - st.rx_last_timestamp > THRESHOLD_SYNC)]
  simp only [Option.map_some']
  rw [if_pos h67]
  have : pyListSet st.rx_timings (0 : ℤ) (t - st.rx_last_timestamp) =
      st.rx_timings.set 0 (t - st.rx_last_timestamp) := pyListSet_ofNat st.rx_timings 0 _
  simp only [this]
  norm_num

/-- A sync edge that would invoke the decoder on an out-of-range protocol
id raises (`PROTOCOLS[pnum]` fails): modelled as `none`. -/
theorem rx_sync_badproto (st : RFDevice) (t : ℤ)
    (hproto : protocolAt st.rx_proto = none)
    (h1 : THRESHOLD_SYNC < t - st.rx_last_timestamp)
    (h2 : st.rx_change_count - 1 > 1) :
    rx_callback st t = none := by
  simp only [rx_callback]
  rw [if_pos (by have e1 := thresholdTick_val; have e2 := thresholdSync_val; omega :
      t - st.rx_last_timestamp > THRESHOLD_TICK),
    if_pos (by omega : t - st.rx_last_timestamp > THRESHOLD_SYNC)]
  rw [if_pos h2, hproto]
  rfl

theorem rx_callback_inv (st : RFDevice) (t : ℤ) (st' : RFDevice)
    (hinv : rxInv st) (h : rx_callback st t = some st') : rxInv st' := by
  obtain ⟨h0, h67, hlen⟩ := hinv
  have hmc : (MAX_CHANGES : ℤ) = 67 := rfl
  by_cases htick : t - st.rx_last_timestamp ≤ THRESHOLD_TICK
  · rw [rx_noise st t htick] at h
    obtain rfl := Option.some.inj h
    exact ⟨h0, h67, hlen⟩
  · by_cases hsync : t - st.rx_last_timestamp ≤ THRESHOLD_SYNC
    · by_cases hov : st.rx_change_count ≥ (MAX_CHANGES : ℤ)
      · rw [rx_data_overflow st t hov (by omega) hsync] at h
        obtain rfl := Option.some.inj h
        exact ⟨by norm_num, by rw [hmc]; norm_num, by simp [hlen]⟩
      · have hm : st.rx_change_count = ((st.rx_change_count.toNat : ℕ) : ℤ) := by omega
        rw [rx_data st t st.rx_change_count.toNat hm
          (by rw [show MAX_CHANGES = 67 from rfl]; omega) (by omega) hsync] at h
        obtain rfl := Option.some.inj h
        refine ⟨by simp; omega, ?_, by simp [hlen]⟩
        show (st.rx_change_count.toNat : ℤ) + 1 ≤ (MAX_CHANGES : ℤ)
        rw [hmc]
        omega
    · by_cases hdec : st.rx_change_count - 1 > 1
      · rcases hproto : protocolAt st.rx_proto with _ | P
        · rw [rx_sync_badproto st t hproto (by omega) hdec] at h
          cases h
        · have hn : st.rx_change_count = ((st.rx_change_count.toNat : ℕ) : ℤ) := by omega
          rw [rx_sync_decode st t P st.rx_change_count.toNat hproto (by omega) hn
            (by omega)] at h
          obtain rfl := Option.some.inj h
          exact ⟨by norm_num, by rw [hmc]; norm_num,
            by simp [(rxWaveform_fields P _ _ _).1, hlen]⟩
      · rw [rx_sync_nodecode st t (by omega) hdec] at h
        obtain rfl := Option.some.inj h
        exact ⟨by norm_num, by rw [hmc]; norm_num, by simp [hlen]⟩

theorem runCallbacks_inv (ts : List ℤ) : ∀ (st st' : RFDevice), rxInv st →
    runCallbacks st ts = some st' → rxInv st' := by
  induction ts with
  | nil =>
    intro st st' hinv h
    obtain rfl := Option.some.inj h
    exact hinv
  | cons t rest ih =>
    intro st st' hinv h
    rw [runCallbacks] at h
    rcases hcb : rx_callback st t with _ | s1
    · rw [hcb] at h; cases h
    · rw [hcb, Option.some_bind] at h
      exact ih s1 st' (rx_callback_inv st t s1 hinv hcb) h

/-- C6 (confirmed): the interval buffer has fixed capacity
`MAX_CHANGES + 1 = 68`; every device built by `initDevice` satisfies the
buffer invariant (`0 ≤ change_count ≤ MAX_CHANGES = 67` with the buffer at
68 slots), every sequence of edge-handler invocations preserves it — so
all buffer accesses are in bounds — and a data interval arriving with
`change_count ≥ MAX_CHANGES` resets `repeat_count` to 0 and
`change_count` to 0, discarding the partial frame; the interval itself is
then stored in-bounds at slot 0 (leaving `change_count` at 1). -/
theorem c6_buffer_safety :
    (∀ (p : ℕ) (pl : Option ℤ) (R L : ℕ) (tol : ℤ) (dev : RFDevice),
      initDevice p pl R L tol = some dev → rxInv dev) ∧
    (∀ (st : RFDevice) (ts : List ℤ) (st' : RFDevice), rxInv st →
      runCallbacks st ts = some st' → rxInv st') ∧
    (∀ (st : RFDevice) (t : ℤ), st.rx_change_count ≥ (MAX_CHANGES : ℤ) →
      THRESHOLD_TICK < t - st.rx_last_timestamp →
      t - st.rx_last_timestamp ≤ THRESHOLD_SYNC →
      rx_callback st t =
        some { st with rx_change_count := 1, rx_repeat_count := 0,
                       rx_timings := st.rx_timings.set 0 (t - st.rx_last_timestamp),
                       rx_last_timestamp := t }) := by
  refine ⟨?_, ?_, ?_⟩
  · intro p pl R L tol dev hdev
    rcases pl with _ | v
    all_goals simp only [initDevice] at hdev
    · rcases hPA : protocolAt p with _ | P
      · rw [hPA] at hdev; cases hdev
      · rw [hPA] at hdev
        simp only [Option.map_some'] at hdev
        obtain rfl := Option.some.inj hdev
        exact ⟨by norm_num, by norm_num, by simp⟩
    · by_cases hv : v = 0
      · rcases hPA : protocolAt p with _ | P
        · rw [if_pos hv, hPA] at hdev; cases hdev
        · rw [if_pos hv, hPA] at hdev
          simp only [Option.map_some'] at hdev
          obtain rfl := Option.some.inj hdev
          exact ⟨by norm_num, by norm_num, by simp⟩
      · rw [if_neg hv] at hdev
        simp only [Option.map_some'] at hdev
        obtain rfl := Option.some.inj hdev
        exact ⟨by norm_num, by norm_num, by simp⟩
  · intro st ts st' hinv h
    exact runCallbacks_inv ts st st' hinv h
  · intro st t hov h1 h2
    exact rx_data_overflow st t hov h1 h2

/-- A protocol-1 receiver whose buffer cursor sits at the overflow guard. -/
def c6State : RFDevice := { mkDevice 1 350 10 24 70 with rx_change_count := 67 }

/-- Witness for C6: the fresh device satisfies the invariant, it is
preserved across two concrete edges, and the overflow reset fires at
`change_count = 67`. -/
theorem c6_buffer_safety_witness :
    rxInv (mkDevice 1 350 10 24 70) ∧
    rxInv ((runCallbacks (mkDevice 1 350 10 24 70) [20000, 21050]).getD
      (mkDevice 1 350 10 24 70)) ∧
    rx_callback c6State 1000 =
      some { c6State with rx_change_count := 1, rx_repeat_count := 0,
                          rx_timings := c6State.rx_timings.set 0
                            (1000 - c6State.rx_last_timestamp),
                          rx_last_timestamp := 1000 } :=
  ⟨c6_buffer_safety.1 1 none 10 24 70 (mkDevice 1 350 10 24 70) rfl,
   c6_buffer_safety.2.1 (mkDevice 1 350 10 24 70) [20000, 21050] _
     (c6_buffer_safety.1 1 none 10 24 70 (mkDevice 1 350 10 24 70) rfl) (by decide),
   c6_buffer_safety.2.2 c6State 1000 (by decide) (by decide) (by decide)⟩

/-! ## Claim C8 -/

theorem rxLoop_some_iff (T : List ℤ) (P : Protocol) (delay tol : ℤ) :
    ∀ (idxs : List ℕ) (acc : ℕ),
      (∃ code, rxLoop T P delay tol idxs acc = some code) ↔
        ∀ i ∈ idxs, (pairMatches T delay tol i P.zero_high P.zero_low = true ∨
          pairMatches T delay tol i P.one_high P.one_low = true) := by
  intro idxs
  induction idxs with
  | nil => intro acc; simp [rxLoop]
  | cons i rest ih =>
    intro acc
    by_cases hz : pairMatches T delay tol i P.zero_high P.zero_low = true
    · rw [rxLoop, if_pos hz]
      constructor
      · intro hex j hj
        rcases List.mem_cons.mp hj with rfl | hj'
        · exact Or.inl hz
        · exact (ih (2 * acc)).mp hex j hj'
      · intro hall
        exact (ih (2 * acc)).mpr fun j hj => hall j (List.mem_cons_of_mem i hj)
    · by_cases ho : pairMatches T delay tol i P.one_high P.one_low = true
      · rw [rxLoop, if_neg hz, if_pos ho]
        constructor
        · intro hex j hj
          rcases List.mem_cons.mp hj with rfl | hj'
          · exact Or.inr ho
          · exact (ih (2 * acc + 1)).mp hex j hj'
        · intro hall
          exact (ih (2 * acc + 1)).mpr fun j hj => hall j (List.mem_cons_of_mem i hj)
      · rw [rxLoop, if_neg hz, if_neg ho]
        constructor
        · intro ⟨code, hcode⟩; cases hcode
        · intro hall
          exact absurd (hall i (List.mem_cons_self i rest)) (by simp [hz, ho])

/-- C8 (confirmed): `_rx_waveform` is all-or-nothing.  It reports `True`
and writes the mailbox exactly when the decoding loop succeeds (which
happens iff every visited (high, low) pair matches the zero or the one
template), more than 6 transitions are pending, and the decoded integer is
nonzero; in every other case it returns `False` with the device state —
mailbox included — completely unchanged, surfacing no error. -/
theorem c8_all_or_nothing (P : Protocol) (st : RFDevice) (cc : ℕ) (ts : ℤ) :
    ((rxWaveform P st cc ts).2 = true ↔
      ∃ code, rxLoop st.rx_timings P (Int.tdiv (st.rx_timings.getD 0 0) P.sync_low)
          st.rx_tolerance (oddIndicesBelow cc) 0 = some code ∧
        st.rx_change_count > 6 ∧ code ≠ 0) ∧
    ((rxWaveform P st cc ts).2 = false → (rxWaveform P st cc ts).1 = st) ∧
    ((rxWaveform P st cc ts).2 = true →
      ∃ code, rxLoop st.rx_timings P (Int.tdiv (st.rx_timings.getD 0 0) P.sync_low)
          st.rx_tolerance (oddIndicesBelow cc) 0 = some code ∧
        (rxWaveform P st cc ts).1 =
          { st with rx_code := some code, rx_code_timestamp := some ts }) ∧
    ((∃ code, rxLoop st.rx_timings P (Int.tdiv (st.rx_timings.getD 0 0) P.sync_low)
        st.rx_tolerance (oddIndicesBelow cc) 0 = some code) ↔
      ∀ i ∈ oddIndicesBelow cc,
        (pairMatches st.rx_timings (Int.tdiv (st.rx_timings.getD 0 0) P.sync_low)
            st.rx_tolerance i P.zero_high P.zero_low = true ∨
          pairMatches st.rx_timings (Int.tdiv (st.rx_timings.getD 0 0) P.sync_low)
            st.rx_tolerance i P.one_high P.one_low = true)) := by
  have he : rxWaveform P st cc ts =
      match rxLoop st.rx_timings P (Int.tdiv (st.rx_timings.getD 0 0) P.sync_low)
          st.rx_tolerance (oddIndicesBelow cc) 0 with
      | none => (st, false)
      | some code =>
        if st.rx_change_count > 6 ∧ code ≠ 0 then
          ({ st with rx_code := some code, rx_code_timestamp := some ts }, true)
        else (st, false) := rfl
  refine ⟨?_, ?_, ?_, rxLoop_some_iff st.rx_timings P _ st.rx_tolerance (oddIndicesBelow cc) 0⟩
  · rcases hres : rxLoop st.rx_timings P (Int.tdiv (st.rx_timings.getD 0 0) P.sync_low)
        st.rx_tolerance (oddIndicesBelow cc) 0 with _ | code
    · rw [hres] at he
      have he2 : rxWaveform P st cc ts = (st, false) := he
      rw [he2]
      constructor
      · intro h; cases h
      · rintro ⟨code', hcode', -, -⟩; cases hcode'
    · rw [hres] at he
      have he2 : rxWaveform P st cc ts =
          (if st.rx_change_count > 6 ∧ code ≠ 0 then
            ({ st with rx_code := some code, rx_code_timestamp := some ts }, true)
          else (st, false)) := he
      by_cases hg : st.rx_change_count > 6 ∧ code ≠ 0
      · rw [if_pos hg] at he2
        rw [he2]
        exact ⟨fun _ => ⟨code, rfl, hg⟩, fun _ => rfl⟩
      · rw [if_neg hg] at he2
        rw [he2]
        constructor
        · intro h; cases h
        · rintro ⟨code', hcode', h6', hnz'⟩
          obtain rfl := Option.some.inj hcode'
          exact absurd ⟨h6', hnz'⟩ hg
  · rcases hres : rxLoop st.rx_timings P (Int.tdiv (st.rx_timings.getD 0 0) P.sync_low)
        st.rx_tolerance (oddIndicesBelow cc) 0 with _ | code
    · rw [hres] at he
      have he2 : rxWaveform P st cc ts = (st, false) := he
      rw [he2]; intro _; rfl
    · rw [hres] at he
      have he2 : rxWaveform P st cc ts =
          (if st.rx_change_count > 6 ∧ code ≠ 0 then
            ({ st with rx_code := some code, rx_code_timestamp := some ts }, true)
          else (st, false)) := he
      by_cases hg : st.rx_change_count > 6 ∧ code ≠ 0
      · rw [if_pos hg] at he2; rw [he2]; intro h; cases h
      · rw [if_neg hg] at he2; rw [he2]; intro _; rfl
  · rcases hres : rxLoop st.rx_timings P (Int.tdiv (st.rx_timings.getD 0 0) P.sync_low)
        st.rx_tolerance (oddIndicesBelow cc) 0 with _ | code
    · rw [hres] at he
      have he2 : rxWaveform P st cc ts = (st, false) := he
      rw [he2]; intro h; cases h
    · rw [hres] at he
      have he2 : rxWaveform P st cc ts =
          (if st.rx_change_count > 6 ∧ code ≠ 0 then
            ({ st with rx_code := some code, rx_code_timestamp := some ts }, true)
          else (st, false)) := he
      by_cases hg : st.rx_change_count > 6 ∧ code ≠ 0
      · rw [if_pos hg] at he2; rw [he2]; intro _; exact ⟨code, rfl, rfl⟩
      · rw [if_neg hg] at he2; rw [he2]; intro h; cases h

/-- A protocol-1 receiver holding one exact 3-bit frame (bits 0, 1, 0)
with seven pending transitions, used to exercise C8. -/
def c8State : RFDevice :=
  { mkDevice 1 350 10 24 70 with
    rx_change_count := 7,
    rx_timings := [32550, 1050, 3150, 3150, 1050, 1050, 3150] }

/-- Witness for C8: on `c8State` the decode succeeds and, by the
all-or-nothing theorem, the mailbox is written with the decoded code. -/
theorem c8_all_or_nothing_witness :
    ∃ code, rxLoop c8State.rx_timings ⟨350, 1, 31, 1, 3, 3, 1⟩
        (Int.tdiv (c8State.rx_timings.getD 0 0) (31 : ℤ))
        c8State.rx_tolerance (oddIndicesBelow 7) 0 = some code ∧
      (rxWaveform ⟨350, 1, 31, 1, 3, 3, 1⟩ c8State 7 99).1 =
        { c8State with rx_code := some code, rx_code_timestamp := some 99 } :=
  (c8_all_or_nothing ⟨350, 1, 31, 1, 3, 3, 1⟩ c8State 7 99).2.2.1 (by decide)

/-! ## Claim C9 -/

theorem applyRoleOp_mutex (st : RFDevice) (op : RoleOp)
    (h : ¬(st.tx_enabled = true ∧ st.rx_enabled = true)) :
    ¬((applyRoleOp st op).tx_enabled = true ∧ (applyRoleOp st op).rx_enabled = true) := by
  cases op <;>
    simp only [applyRoleOp, enable_tx, disable_tx, enable_rx, disable_rx] <;>
    split_ifs <;> simp_all

/-- C9 (confirmed): starting from any state with both role flags false (in
particular a freshly constructed device), no sequence of
`enable_tx`/`disable_tx`/`enable_rx`/`disable_rx` calls can make
`tx_enabled` and `rx_enabled` both true; moreover an `enable_tx` issued
while RX is enabled — and an `enable_rx` issued while TX is enabled —
returns `False` and leaves the device state completely unchanged. -/
theorem c9_role_mutex :
    (∀ st : RFDevice, st.tx_enabled = false → st.rx_enabled = false →
      ∀ ops : List RoleOp, ¬((runRoleOps st ops).tx_enabled = true ∧
        (runRoleOps st ops).rx_enabled = true)) ∧
    (∀ st : RFDevice, st.rx_enabled = true → enable_tx st = (st, false)) ∧
    (∀ st : RFDevice, st.tx_enabled = true → enable_rx st = (st, false)) := by
  refine ⟨?_, ?_, ?_⟩
  · intro st htx hrx ops
    have hstart : ¬(st.tx_enabled = true ∧ st.rx_enabled = true) := by
      rw [htx]; simp
    clear htx hrx
    induction ops generalizing st with
    | nil => exact hstart
    | cons op rest ih =>
      rw [runRoleOps]
      exact ih (applyRoleOp st op) (applyRoleOp_mutex st op hstart)
  · intro st hrx
    rw [enable_tx, if_pos hrx]
  · intro st htx
    rw [enable_rx, if_pos htx]

/-- Witness for C9: the fresh device stays mutex-safe under the call
sequence `[enable_tx, enable_rx]`, and concrete rejections occur in both
directions. -/
theorem c9_role_mutex_witness :
    (¬((runRoleOps (mkDevice 1 350 10 24 70) [RoleOp.etx, RoleOp.erx]).tx_enabled = true ∧
      (runRoleOps (mkDevice 1 350 10 24 70) [RoleOp.etx, RoleOp.erx]).rx_enabled = true)) ∧
    enable_tx { mkDevice 1 350 10 24 70 with rx_enabled := true } =
      ({ mkDevice 1 350 10 24 70 with rx_enabled := true }, false) ∧
    enable_rx { mkDevice 1 350 10 24 70 with tx_enabled := true } =
      ({ mkDevice 1 350 10 24 70 with tx_enabled := true }, false) :=
  ⟨c9_role_mutex.1 (mkDevice 1 350 10 24 70) rfl rfl [RoleOp.etx, RoleOp.erx],
   c9_role_mutex.2.1 { mkDevice 1 350 10 24 70 with rx_enabled := true } rfl,
   c9_role_mutex.2.2 { mkDevice 1 350 10 24 70 with tx_enabled := true } rfl⟩

end RFPico
